import Mathlib

set_option maxRecDepth 8000

namespace DiabloLauncher

/-!
Shallow embedding of the patch synchronization, mod reconciliation and
process launching logic of `d2/service.go` (hiddengamersdiablo-launcher).

The install directory is modelled as an association list from file name to
the CRC-32 checksum of the file's content: the only observation the service
ever makes of a file's content is its checksum (`hashCRC32`), so content is
recorded at checksum granularity.  Files are keyed by their manifest name
relative to the install directory (`localizePath` only adapts path
separators and is the identity here).
-/

/-- `strLeads pat s` : the character list `pat` is an initial segment of `s`.
Character-list version of the initial-segment test underlying Go's
`strings.Contains`. -/
def strLeads : List Char → List Char → Bool
  | [], _ => true
  | _ :: _, [] => false
  | a :: as, b :: bs => a == b && strLeads as bs

/-- `strHasSub s pat` : `pat` occurs as a contiguous run inside `s`. -/
def strHasSub : List Char → List Char → Bool
  | [], pat => strLeads pat []
  | c :: rest, pat => strLeads pat (c :: rest) || strHasSub rest pat

/-- Go's `strings.Contains(s, pat)`. -/
def strContains (s pat : String) : Bool :=
  strHasSub s.data pat.data

/-- Go's `strings.HasSuffix(s, pat)` — used only to state the spec's
"ends with `.tmp`" wording, never by the embedded code. -/
def strEndsWith (s pat : String) : Bool :=
  strLeads pat.data.reverse s.data.reverse

/-- The install directory: file name ↦ checksum of the file's content. -/
abbrev Disk := List (String × String)

/-- Reading a file: `none` when the file is absent from the directory. -/
def diskLookup (d : Disk) (n : String) : Option String :=
  (d.find? (fun p => p.1 == n)).map (fun p => p.2)

/-- `os.Remove` on the model directory. -/
def diskRemove (d : Disk) (n : String) : Disk :=
  d.filter (fun p => p.1 != n)

/-- `os.Create` / writing a file: create it or truncate-replace its content. -/
def diskSet (d : Disk) (n v : String) : Disk :=
  (n, v) :: diskRemove d n

/-- `Action` — allowed patch actions (`descargar` / `eliminar`). -/
inductive Action where
  | download
  | delete
deriving DecidableEq, Repr

/-- `string(action)` as used when filling the display model. -/
def Action.str : Action → String
  | .download => "descargar"
  | .delete => "eliminar"

/-- `PatchFile` — a manifest entry. -/
structure PatchFile where
  Name : String
  CRC : String
  LastModified : Int := 0
  ContentLength : Int := 0
  IgnoreCRC : Bool := false
  Deprecated : Bool := false
deriving DecidableEq, Repr

/-- `PatchAction` — produced by the diff engine, consumed by the applier. -/
structure PatchAction where
  Action : Action
  File : PatchFile
  D2Path : String
  LocalCRC : String
deriving DecidableEq, Repr

/-- `Manifest` — the file list of one patch target. -/
structure Manifest where
  Files : List PatchFile
deriving DecidableEq, Repr

/-- A row of the UI-facing patch file model (`d2.File`). -/
structure ModelFile where
  Name : String
  D2Path : String
  RemoteCRC : String
  LocalCRC : String
  FileAction : String
deriving DecidableEq, Repr

/-- `storage.Game` — one configured installation. -/
structure Game where
  ID : String := ""
  Location : String := ""
  Instances : Int := 0
  OverrideBHCfg : Bool := false
  Flags : List String := []
  HDVersion : String := ""
  MaphackVersion : String := ""
deriving DecidableEq, Repr

/-- `storage.Config` — the persisted configuration. -/
structure Config where
  Games : List Game := []
  LaunchDelay : Int := 0
deriving DecidableEq, Repr

/-- `d2.game` — one running game process. -/
structure game where
  PID : Int
  GameID : String
deriving DecidableEq, Repr

/-- `config.GameMods` — the remotely advertised mod versions per category. -/
structure GameMods where
  Maphack : List String := []
  HD : List String := []
deriving DecidableEq, Repr

/-- The distinguished checksum failure (`ErrCRCFileNotFound`).  `IOFailure`
style errors are not modelled: the model directory is always readable. -/
inductive CRCErr where
  | fileNotFound
deriving DecidableEq, Repr

/-- `hashCRC32(path, polynomial)` over the model directory: the directory
stores each file's checksum, so hashing is a lookup; a missing file yields
`ErrCRCFileNotFound`.  (The CRC-32 implementation itself is external to
`src/`; per the spec it is a pure function of the content, which the model
records by its checksum.) -/
def hashCRC32 (disk : Disk) (name : String) : Except CRCErr String :=
  match diskLookup disk name with
  | none => .error .fileNotFound
  | some crc => .ok crc

/-- `fileExistsOnDisk` from `service.go` (`os.Stat` based). -/
def fileExistsOnDisk (disk : Disk) (name : String) : Bool :=
  (diskLookup disk name).isSome

/-- The body of the `getFilesToPatch` loop for a single manifest entry:
ignore-list check, deprecation check, checksum comparison.  Returns the
actions emitted for this entry together with its contribution to
`totalContentLength`. -/
def diffEntry (f : PatchFile) (disk : Disk) (d2path : String)
    (filesToIgnore : List String) : List PatchAction × Int :=
  if !filesToIgnore.isEmpty && filesToIgnore.contains f.Name then
    ([], 0)
  else if f.Deprecated then
    -- `fileExistsOnDisk` then `hashCRC32`; both observe the same directory.
    if fileExistsOnDisk disk f.Name then
      match hashCRC32 disk f.Name with
      | .ok hashed =>
        ([{ Action := .delete, File := f, D2Path := d2path, LocalCRC := hashed }], 0)
      | .error _ => ([], 0)
    else ([], 0)
  else
    match hashCRC32 disk f.Name with
    | .error .fileNotFound =>
      -- hashed is Go's zero value "" when hashing failed
      ([{ Action := .download, File := f, D2Path := d2path, LocalCRC := "" }], f.ContentLength)
    | .ok hashed =>
      if f.IgnoreCRC then ([], 0)
      else if hashed != f.CRC then
        ([{ Action := .download, File := f, D2Path := d2path, LocalCRC := hashed }], f.ContentLength)
      else ([], 0)

/-- `getFilesToPatch(files, d2path, filesToIgnore)` — the manifest diff
engine, in manifest order. -/
def getFilesToPatch (files : List PatchFile) (disk : Disk) (d2path : String)
    (filesToIgnore : List String) : List PatchAction × Int :=
  match files with
  | [] => ([], 0)
  | f :: rest =>
    let here := diffEntry f disk d2path filesToIgnore
    let there := getFilesToPatch rest disk d2path filesToIgnore
    (here.1 ++ there.1, here.2 + there.2)

/-- The `.tmp` extension appended to files while they download. -/
def tmpExt : String := ".tmp"

/-- `downloadFile`: `os.Create` the `.tmp` sibling (truncating), then fetch
the remote content; a fetch failure leaves the created `.tmp` file behind
and surfaces the error (carrying the directory state at failure). -/
def downloadFile (remote : String → Option String) (fileName remoteDir tmpPath : String)
    (disk : Disk) : Except Disk Disk :=
  let created := diskSet disk tmpPath ""
  match remote (remoteDir ++ "/" ++ fileName) with
  | none => .error created
  | some contents => .ok (diskSet created tmpPath contents)

/-- `deleteFile`: removing an absent file is a success (idempotent). -/
def deleteFile (fileName : String) (disk : Disk) : Disk :=
  if fileExistsOnDisk disk fileName then diskRemove disk fileName else disk

/-- `tmpFile[:len(tmpFile)-4]` — strip the four characters of `.tmp`. -/
def stripTmpSuffix (t : String) : String :=
  String.mk (t.data.take (t.data.length - 4))

/-- The action loop of `doPatch`: downloads write to `.tmp` siblings and
are recorded in `tmpFiles`; deletes happen immediately.  An error returns
the directory state at the moment of failure. -/
def doPatchActions (remote : String → Option String) (remoteDir : String) :
    List PatchAction → Disk → List String → Except Disk (Disk × List String)
  | [], disk, tmps => .ok (disk, tmps)
  | action :: rest, disk, tmps =>
    let tmpPath := action.File.Name ++ tmpExt
    match action.Action with
    | .download =>
      match downloadFile remote action.File.Name remoteDir tmpPath disk with
      | .error d => .error d
      | .ok d => doPatchActions remote remoteDir rest d (tmps ++ [tmpPath])
    | .delete => doPatchActions remote remoteDir rest (deleteFile action.File.Name disk) tmps

/-- The promotion loop of `doPatch`: `os.Rename` every recorded `.tmp`
file to its final name, in download order. -/
def renameTmps (tmps : List String) (disk : Disk) : Disk :=
  tmps.foldl
    (fun d t =>
      match diskLookup d t with
      | some v => diskSet (diskRemove d t) (stripTmpSuffix t) v
      | none => d)
    disk

/-- `doPatch(patchFiles, patchLength, remoteDir, path, progress)`.  Progress
reporting is a side channel with no effect on the directory and is omitted.
On error the carried `Disk` is the directory at the moment of failure. -/
def doPatch (remote : String → Option String) (patchFiles : List PatchAction)
    (remoteDir : String) (disk : Disk) : Except Disk Disk :=
  match doPatchActions remote remoteDir patchFiles disk [] with
  | .error d => .error d
  | .ok (d, tmps) => .ok (renameTmps tmps d)

/-- `cleanUpFailedPatch`: walk the directory listing and remove every file
whose name *contains* `.tmp` (`strings.Contains`, not a suffix test). -/
def cleanUpFailedPatch (disk : Disk) : Disk :=
  (disk.map (fun p => p.1)).foldl
    (fun d fileName => if strContains fileName tmpExt then diskRemove d fileName else d)
    disk

/-- `resetPatch(path, files, filesToIgnore)`: if the diff reports that not
*all* manifest files mismatch, remove every manifest file still on disk,
except the ignored ones. -/
def resetPatch (files : List PatchFile) (disk : Disk) (d2path : String)
    (filesToIgnore : List String) : Disk :=
  let missmatchedFiles := (getFilesToPatch files disk d2path filesToIgnore).1
  if missmatchedFiles.length != files.length then
    files.foldl
      (fun d file =>
        if fileExistsOnDisk d file.Name then
          if filesToIgnore.contains file.Name then d else diskRemove d file.Name
        else d)
      disk
  else disk

/-- Modelled from the spec: `ModHDIdentifier` is the category-identifying
marker for the HD mod family; its concrete value lives outside `src/` and
is immaterial to the claims. -/
def ModHDIdentifier : String := "d2hd"

/-- Modelled from the spec: `ModMaphackIdentifier` is the
category-identifying marker for the maphack family; its concrete value
lives outside `src/` and is immaterial to the claims. -/
def ModMaphackIdentifier : String := "bh"

/-- Modelled from the spec: `isModInstalled(path, identifier, manifest)`
(the function itself is not under `src/`): find the category-identifying
marker file — a manifest entry whose name carries the identifier — and
report whether that representative file exists on disk. -/
def isModInstalled (disk : Disk) (identifier : String) (manifest : Manifest) : Bool :=
  match manifest.Files.find? (fun f => strContains f.Name identifier) with
  | some marker => fileExistsOnDisk disk marker.Name
  | none => false

/-- `resetHDPatch(game)`: for every available HD version other than the
desired one, reset it when its marker reports it installed. -/
def resetHDPatch (manifests : String → Manifest) (mods : GameMods) (g : Game)
    (disk : Disk) : Disk :=
  mods.HD.foldl
    (fun d m =>
      if g.HDVersion == m then d
      else
        let HDManifest := manifests ("hd_" ++ m ++ "/manifest.json")
        if isModInstalled d ModHDIdentifier HDManifest then
          resetPatch HDManifest.Files d g.Location []
        else d)
    disk

/-- `resetMaphackPatch(game, filesToIgnore)`. -/
def resetMaphackPatch (manifests : String → Manifest) (mods : GameMods) (g : Game)
    (filesToIgnore : List String) (disk : Disk) : Disk :=
  mods.Maphack.foldl
    (fun d m =>
      if g.MaphackVersion == m then d
      else
        let maphackManifest := manifests ("maphack_" ++ m ++ "/manifest.json")
        if isModInstalled d ModMaphackIdentifier maphackManifest then
          resetPatch maphackManifest.Files d g.Location filesToIgnore
        else d)
    disk

/-- `addFilesToModel`: append one UI row per patch action to the shared
file model (`FileModel.AddFile` appends a row; the Qt model type is
external to `src/`). -/
def addFilesToModel (model : List ModelFile) (patchActions : List PatchAction) :
    List ModelFile :=
  model ++ patchActions.map (fun a =>
    { Name := a.File.Name
      D2Path := a.D2Path
      RemoteCRC := a.File.CRC
      LocalCRC := a.LocalCRC
      FileAction := a.Action.str })

/-- The action list built by `addPatchFilesToBeDeleted`: every manifest
file is checksummed; *any* checksum error — including a plain missing
file — aborts with that error. -/
def patchFilesToBeDeleted (disk : Disk) (d2path : String) :
    List PatchFile → Except CRCErr (List PatchAction)
  | [] => .ok []
  | file :: rest =>
    match hashCRC32 disk file.Name with
    | .error e => .error e
    | .ok hashed =>
      match patchFilesToBeDeleted disk d2path rest with
      | .error e => .error e
      | .ok actions =>
        .ok ({ Action := .delete, File := file, D2Path := d2path, LocalCRC := hashed } :: actions)

/-- `addPatchFilesToBeDeleted(d2path, files)`: build the delete actions and,
only when every checksum succeeded, add them to the display model. -/
def addPatchFilesToBeDeleted (disk : Disk) (d2path : String) (files : List PatchFile)
    (model : List ModelFile) : Except CRCErr (List ModelFile) :=
  match patchFilesToBeDeleted disk d2path files with
  | .error e => .error e
  | .ok actions => .ok (addFilesToModel model actions)

/-- The `ignoredMaphackFiles` list built at the top of the maphack loop
body (and in `Patch`): the user-overridden `BH.cfg` is excluded. -/
def maphackIgnoredFiles (g : Game) : List String :=
  if g.OverrideBHCfg then ["BH.cfg"] else []

/-- The loop of `validateMaphackVersion` over the available versions,
threading `isValid` and the display model.  (Go binds the fetched manifest
and the ignore list to locals; they are inlined here.) -/
def validateMaphackVersionLoop (manifests : String → Manifest) (disk : Disk) (g : Game) :
    List String → Bool → List ModelFile → Except CRCErr Bool × List ModelFile
  | [], isValid, model => (.ok isValid, model)
  | v :: rest, isValid, model =>
    if g.MaphackVersion == v then
      if (getFilesToPatch (manifests ("maphack_" ++ v ++ "/manifest.json")).Files disk
            g.Location (maphackIgnoredFiles g)).1.length > 0 then
        validateMaphackVersionLoop manifests disk g rest false
          (addFilesToModel model
            (getFilesToPatch (manifests ("maphack_" ++ v ++ "/manifest.json")).Files disk
              g.Location (maphackIgnoredFiles g)).1)
      else validateMaphackVersionLoop manifests disk g rest isValid model
    else
      if isModInstalled disk ModMaphackIdentifier
          (manifests ("maphack_" ++ v ++ "/manifest.json")) then
        match addPatchFilesToBeDeleted disk g.Location
            (manifests ("maphack_" ++ v ++ "/manifest.json")).Files model with
        | .error e => (.error e, model)
        | .ok model2 => validateMaphackVersionLoop manifests disk g rest false model2
      else validateMaphackVersionLoop manifests disk g rest isValid model

/-- `validateMaphackVersion(game, versions)`. -/
def validateMaphackVersion (manifests : String → Manifest) (disk : Disk) (g : Game)
    (versions : List String) (model : List ModelFile) :
    Except CRCErr Bool × List ModelFile :=
  validateMaphackVersionLoop manifests disk g versions true model

/-- The loop of `validateHDVersion` over the available versions. -/
def validateHDVersionLoop (manifests : String → Manifest) (disk : Disk) (g : Game) :
    List String → Bool → List ModelFile → Except CRCErr Bool × List ModelFile
  | [], isValid, model => (.ok isValid, model)
  | v :: rest, isValid, model =>
    if g.HDVersion == v then
      if (getFilesToPatch (manifests ("hd_" ++ v ++ "/manifest.json")).Files disk
            g.Location []).1.length > 0 then
        validateHDVersionLoop manifests disk g rest false
          (addFilesToModel model
            (getFilesToPatch (manifests ("hd_" ++ v ++ "/manifest.json")).Files disk
              g.Location []).1)
      else validateHDVersionLoop manifests disk g rest isValid model
    else
      if isModInstalled disk ModHDIdentifier (manifests ("hd_" ++ v ++ "/manifest.json")) then
        match addPatchFilesToBeDeleted disk g.Location
            (manifests ("hd_" ++ v ++ "/manifest.json")).Files model with
        | .error e => (.error e, model)
        | .ok model2 => validateHDVersionLoop manifests disk g rest false model2
      else validateHDVersionLoop manifests disk g rest isValid model

/-- `validateHDVersion(game, versions)`. -/
def validateHDVersion (manifests : String → Manifest) (disk : Disk) (g : Game)
    (versions : List String) (model : List ModelFile) :
    Except CRCErr Bool × List ModelFile :=
  validateHDVersionLoop manifests disk g versions true model

/-- The 1.13c step of the `ValidateGameVersions` loop body: when the base
version check fails, the 1.13c diff is added to the display model.
`valid113c` abstracts `validate113cVersion` (external to `src/`; per the
spec a pure check of the installed base version), and `fs` maps an install
location to its directory. -/
def processGame113 (manifests : String → Manifest) (valid113c : String → Bool)
    (fs : String → Disk) (g : Game) (model : List ModelFile) : List ModelFile :=
  if !valid113c g.Location then
    addFilesToModel model
      (getFilesToPatch (manifests "1.13c/manifest.json").Files (fs g.Location)
        g.Location []).1
  else model

/-- The slash-patch diff of one installation (`slashFiles` in the loop
body). -/
def slashFilesOf (manifests : String → Manifest) (fs : String → Disk) (g : Game) :
    List PatchAction :=
  (getFilesToPatch (manifests "current/manifest.json").Files (fs g.Location)
    g.Location []).1

/-- The slash-patch step of the loop body: a non-empty diff is added to
the display model. -/
def processGameSlash (manifests : String → Manifest) (fs : String → Disk) (g : Game)
    (model : List ModelFile) : List ModelFile :=
  if (slashFilesOf manifests fs g).length > 0 then
    addFilesToModel model (slashFilesOf manifests fs g)
  else model

/-- The per-installation body of the `ValidateGameVersions` loop: base
version, slash patch, then both mod categories, each mutating the shared
display model in turn; a mod-validation error aborts with the model as
mutated so far.  The returned `Bool` is this game's contribution to the
conjunctive `upToDate` flag. -/
def processGame (manifests : String → Manifest) (valid113c : String → Bool)
    (fs : String → Disk) (mods : GameMods) (g : Game) (model : List ModelFile) :
    Except CRCErr Bool × List ModelFile :=
  match validateMaphackVersion manifests (fs g.Location) g mods.Maphack
      (processGameSlash manifests fs g (processGame113 manifests valid113c fs g model)) with
  | (.error e, m) => (.error e, m)
  | (.ok validMaphack, model3) =>
    match validateHDVersion manifests (fs g.Location) g mods.HD model3 with
    | (.error e, m) => (.error e, m)
    | (.ok validHD, model4) =>
      (.ok (valid113c g.Location && !(decide ((slashFilesOf manifests fs g).length > 0))
        && validMaphack && validHD), model4)

/-- The loop of `ValidateGameVersions` over the configured games: the
shared `upToDate` flag is only ever lowered, and an error aborts the loop
with the display model as mutated so far. -/
def validateGameVersionsLoop (manifests : String → Manifest) (valid113c : String → Bool)
    (fs : String → Disk) (mods : GameMods) :
    List Game → Bool → List ModelFile → Except CRCErr Bool × List ModelFile
  | [], upToDate, model => (.ok upToDate, model)
  | g :: rest, upToDate, model =>
    match processGame manifests valid113c fs mods g model with
    | (.error e, m) => (.error e, m)
    | (.ok gameOk, m) =>
      validateGameVersionsLoop manifests valid113c fs mods rest (upToDate && gameOk) m

/-- `ValidateGameVersions()` restricted to its pure core: manifests and the
available mods are fetched up front, then every configured game is
processed in order against the shared display model. -/
def validateGameVersions (manifests : String → Manifest) (valid113c : String → Bool)
    (fs : String → Disk) (mods : GameMods) (conf : Config) (model : List ModelFile) :
    Except CRCErr Bool × List ModelFile :=
  validateGameVersionsLoop manifests valid113c fs mods conf.Games true model

/-- `defaultLaunchDelay` in milliseconds. -/
def defaultLaunchDelay : Int := 1000

/-- The number of running games recorded with a given installation id. -/
def runningCountOf (runningGames : List game) (id : String) : Nat :=
  (runningGames.filter (fun r => r.GameID == id)).length

/-- `mutateInstancesToLaunch(games)`: subtract per-id running counts from
the configured instance counts (no clamping here; `Exec` only launches
positive counts). -/
def mutateInstancesToLaunch (games : List Game) (runningGames : List game) : List Game :=
  games.map (fun g => { g with Instances := g.Instances - (runningCountOf runningGames g.ID : Int) })

/-- One observable launch performed by `Exec`: the installation index `k`
and instance index `i` of the launch, the sleep inserted before it
(`none` exactly for `firstRun`, i.e. `k == 0 && i == 0`), and the
installation id recorded with the spawned process. -/
structure LaunchEvent where
  gameIdx : Nat
  instIdx : Nat
  preDelay : Option Int
  gameID : String
deriving DecidableEq, Repr

/-- The launches the inner loop of `Exec` performs for the installation at
index `k`: one event per instance, the sleep before each launch recorded in
`preDelay` (`none` exactly for `firstRun := k == 0 && i == 0`). -/
def execEvs (delayMS : Int) (k : Nat) (g : Game) : List LaunchEvent :=
  (List.range g.Instances.toNat).map (fun i =>
    { gameIdx := k, instIdx := i
      preDelay := if k == 0 && i == 0 then none else some delayMS
      gameID := g.ID })

/-- The running-games slice after the inner loop for one installation:
one appended entry per launch, carrying the pid of the spawned process
(`pidGen` abstracts the pid returned by the external `launch`
collaborator; every launch succeeds). -/
def execNewRunning (pidGen : Nat → Int) (g : Game) (runningGames : List game) : List game :=
  runningGames ++ (List.range g.Instances.toNat).map
    (fun i => { PID := pidGen (runningGames.length + i), GameID := g.ID })

/-- The launch loop of `Exec` over the (mutated) games, from installation
index `k`. -/
def execLoop (delayMS : Int) (pidGen : Nat → Int) :
    Nat → List Game → List game → List LaunchEvent × List game
  | _, [], runningGames => ([], runningGames)
  | k, g :: rest, runningGames =>
    if g.Instances > 0 then
      (execEvs delayMS k g ++
        (execLoop delayMS pidGen (k + 1) rest (execNewRunning pidGen g runningGames)).1,
       (execLoop delayMS pidGen (k + 1) rest (execNewRunning pidGen g runningGames)).2)
    else execLoop delayMS pidGen (k + 1) rest runningGames

/-- The delay `Exec` uses between launches: `defaultLaunchDelay` when no
launch delay has been configured. -/
def execDelay (conf : Config) : Int :=
  if conf.LaunchDelay == 0 then defaultLaunchDelay else conf.LaunchDelay

/-- `Exec()` restricted to its pure core: mutate the instance counts by the
already-running games, pick the launch delay (defaulting when unset), and
run the launch loop from installation index 0. -/
def execD2 (conf : Config) (runningGames : List game) (pidGen : Nat → Int) :
    List LaunchEvent × List game :=
  execLoop (execDelay conf) pidGen 0 (mutateInstancesToLaunch conf.Games runningGames)
    runningGames

/-- Spec-side definition for the round-trip claim: apply *every* action of
a diff — a `Download` replaces the file's content by remote content whose
checksum equals the entry's remote checksum, a `Delete` removes the
file. -/
def applyDiffActions (actions : List PatchAction) (disk : Disk) : Disk :=
  actions.foldl
    (fun d a =>
      match a.Action with
      | .download => diskSet d a.File.Name a.File.CRC
      | .delete => diskRemove d a.File.Name)
    disk

/-- Spec-side definition for the round-trip claim as literally stated:
apply only the `Download` actions of a diff. -/
def applyDownloadActions (actions : List PatchAction) (disk : Disk) : Disk :=
  actions.foldl
    (fun d a =>
      match a.Action with
      | .download => diskSet d a.File.Name a.File.CRC
      | .delete => d)
    disk

/-- What one entry's name maps to after its own diff actions are applied,
as a function of what it mapped to before. -/
def afterLookup (f : PatchFile) (filesToIgnore : List String) (pre : Option String) :
    Option String :=
  if !filesToIgnore.isEmpty && filesToIgnore.contains f.Name then pre
  else if f.Deprecated then none
  else
    match pre with
    | none => some f.CRC
    | some c => if f.IgnoreCRC then some c else if c != f.CRC then some f.CRC else some c

/-- Example configuration from the spec's pacing property: two
installations with instance counts 2 and 1 and no configured delay. -/
def execConfExample : Config where
  Games := [{ ID := "g1", Instances := 2 }, { ID := "g2", Instances := 1 }]
  LaunchDelay := 0

/-- Fixture for the partial-validation scenario: the slash manifest wants
`s.dll`, and maphack version `B`'s manifest has a marker file plus a
second file. -/
def c10Manifests : String → Manifest := fun s =>
  if s == "current/manifest.json" then { Files := [{ Name := "s.dll", CRC := "9" }] }
  else if s == "maphack_B/manifest.json" then
    { Files := [{ Name := "bh.dll", CRC := "1" }, { Name := "extra.dll", CRC := "2" }] }
  else { Files := [] }

/-- Fixture: directories of the two install locations — at `L2` the
maphack marker is present but `extra.dll` is missing. -/
def c10Fs : String → Disk := fun loc => if loc == "L2" then [("bh.dll", "9")] else []

/-- Fixture: two configured installations; processing the second fails in
maphack validation. -/
def c10Conf : Config where
  Games := [{ ID := "1", Location := "L1", MaphackVersion := "A" },
            { ID := "2", Location := "L2", MaphackVersion := "A" }]
  LaunchDelay := 0

/-! ### Helper lemmas: strings -/

theorem strLeads_self (l : List Char) : strLeads l l = true := by
  induction l with
  | nil => rfl
  | cons a as ih => simp [strLeads, ih]

theorem strHasSub_append_self (l p : List Char) : strHasSub (l ++ p) p = true := by
  induction l with
  | nil =>
    cases p with
    | nil => rfl
    | cons c cs => simp [strHasSub, strLeads_self]
  | cons c cs ih => simp [strHasSub, ih]

theorem strContains_append_tmpExt (x : String) : strContains (x ++ tmpExt) tmpExt = true := by
  unfold strContains
  rw [String.data_append]
  exact strHasSub_append_self x.data tmpExt.data

/-! ### Helper lemmas: the model directory -/

theorem diskLookup_cons (p : String × String) (rest : Disk) (m : String) :
    diskLookup (p :: rest) m = if p.1 = m then some p.2 else diskLookup rest m := by
  by_cases h : p.1 = m
  · rw [if_pos h]
    unfold diskLookup
    rw [List.find?_cons_of_pos _ (by simpa using h)]
    rfl
  · rw [if_neg h]
    unfold diskLookup
    rw [List.find?_cons_of_neg _ (by simpa using h)]

theorem diskRemove_cons (p : String × String) (rest : Disk) (n : String) :
    diskRemove (p :: rest) n =
      if p.1 = n then diskRemove rest n else p :: diskRemove rest n := by
  by_cases h : p.1 = n
  · rw [if_pos h]
    unfold diskRemove
    rw [List.filter_cons_of_neg (by simpa using h)]
  · rw [if_neg h]
    unfold diskRemove
    rw [List.filter_cons_of_pos (by simpa using h)]

theorem diskLookup_remove_ne (d : Disk) (n m : String) (h : m ≠ n) :
    diskLookup (diskRemove d n) m = diskLookup d m := by
  induction d with
  | nil => rfl
  | cons p rest ih =>
    rw [diskRemove_cons, diskLookup_cons]
    by_cases hp : p.1 = n
    · rw [if_pos hp, ih, if_neg (by rw [hp]; exact fun hc => h hc.symm)]
    · rw [if_neg hp, diskLookup_cons, ih]

theorem diskLookup_remove_self (d : Disk) (n : String) :
    diskLookup (diskRemove d n) n = none := by
  induction d with
  | nil => rfl
  | cons p rest ih =>
    rw [diskRemove_cons]
    by_cases hp : p.1 = n
    · rw [if_pos hp]; exact ih
    · rw [if_neg hp, diskLookup_cons, if_neg hp]; exact ih

theorem diskLookup_set_self (d : Disk) (n v : String) :
    diskLookup (diskSet d n v) n = some v := by
  unfold diskSet
  rw [diskLookup_cons, if_pos rfl]

theorem diskLookup_set_ne (d : Disk) (n v : String) (m : String) (h : m ≠ n) :
    diskLookup (diskSet d n v) m = diskLookup d m := by
  unfold diskSet
  rw [diskLookup_cons, if_neg (fun hc => h hc.symm), diskLookup_remove_ne d n m h]

theorem diskLookup_remove_none (d : Disk) (n m : String)
    (h : diskLookup d m = none) : diskLookup (diskRemove d n) m = none := by
  by_cases hm : m = n
  · subst hm; exact diskLookup_remove_self d m
  · rw [diskLookup_remove_ne d n m hm]; exact h

theorem diskLookup_mem_keys (d : Disk) (m v : String)
    (h : diskLookup d m = some v) : m ∈ d.map (fun p => p.1) := by
  induction d with
  | nil => simp [diskLookup] at h
  | cons p rest ih =>
    rw [diskLookup_cons] at h
    by_cases hp : p.1 = m
    · simp [hp]
    · rw [if_neg hp] at h
      simp only [List.map_cons, List.mem_cons]
      right
      exact ih h

/-! ### Helper lemmas: the manifest diff engine -/

theorem diffEntry_file (f : PatchFile) (disk : Disk) (p : String) (ign : List String) :
    ∀ a ∈ (diffEntry f disk p ign).1, a.File = f := by
  intro a ha
  unfold diffEntry at ha
  split at ha
  · simp at ha
  · split at ha
    · split at ha
      · split at ha
        · simp at ha
          subst ha
          rfl
        · simp at ha
      · simp at ha
    · split at ha
      · simp at ha
        subst ha
        rfl
      · split at ha
        · simp at ha
        · split at ha
          · simp at ha
            subst ha
            rfl
          · simp at ha

theorem diffEntry_len (f : PatchFile) (disk : Disk) (p : String) (ign : List String) :
    (diffEntry f disk p ign).2 =
      (((diffEntry f disk p ign).1.filter
          (fun a => decide (a.Action = Action.download))).map
        (fun a => a.File.ContentLength)).sum := by
  unfold diffEntry
  split
  · simp
  · split
    · split
      · split <;> simp
      · simp
    · split
      · simp
      · split
        · simp
        · split <;> simp

theorem getFilesToPatch_cons (f : PatchFile) (files : List PatchFile) (disk : Disk)
    (p : String) (ign : List String) :
    getFilesToPatch (f :: files) disk p ign =
      ((diffEntry f disk p ign).1 ++ (getFilesToPatch files disk p ign).1,
       (diffEntry f disk p ign).2 + (getFilesToPatch files disk p ign).2) := rfl

theorem getFilesToPatch_total (files : List PatchFile) (disk : Disk) (p : String)
    (ign : List String) :
    (getFilesToPatch files disk p ign).2 =
      (((getFilesToPatch files disk p ign).1.filter
          (fun a => decide (a.Action = Action.download))).map
        (fun a => a.File.ContentLength)).sum := by
  induction files with
  | nil => rfl
  | cons f rest ih =>
    rw [getFilesToPatch_cons]
    simp only [List.filter_append, List.map_append, List.sum_append]
    rw [← diffEntry_len, ← ih]

theorem getFilesToPatch_filter_file (files : List PatchFile) (disk : Disk) (p : String)
    (ign : List String) (e : PatchFile) :
    ((getFilesToPatch files disk p ign).1.filter (fun a => decide (a.File = e))) =
      (List.replicate (files.countP (fun x => decide (x = e))) (diffEntry e disk p ign).1).flatten := by
  induction files with
  | nil => simp [getFilesToPatch]
  | cons f rest ih =>
    rw [getFilesToPatch_cons]
    simp only [List.filter_append]
    by_cases hfe : f = e
    · subst hfe
      have h1 : ((diffEntry f disk p ign).1.filter (fun a => decide (a.File = f)))
          = (diffEntry f disk p ign).1 := by
        rw [List.filter_eq_self]
        intro a ha
        simp [diffEntry_file f disk p ign a ha]
      have h2 : rest.countP (fun x => decide (x = f)) + 1
          = (f :: rest).countP (fun x => decide (x = f)) := by
        simp [List.countP_cons]
      rw [h1, ih, ← h2, List.replicate_succ, List.flatten_cons]
    · have h1 : ((diffEntry f disk p ign).1.filter (fun a => decide (a.File = e)))
          = [] := by
        rw [List.filter_eq_nil_iff]
        intro a ha
        simp [diffEntry_file f disk p ign a ha, hfe]
      have h2 : (f :: rest).countP (fun x => decide (x = e))
          = rest.countP (fun x => decide (x = e)) := by
        simp [List.countP_cons, hfe]
      rw [h1, ih, h2]
      rfl

theorem diffEntry_ignored (e : PatchFile) (disk : Disk) (p : String) (ign : List String)
    (hig : e.Name ∈ ign) : diffEntry e disk p ign = ([], 0) := by
  unfold diffEntry
  have hne : ign.isEmpty = false := by
    cases ign with
    | nil => simp at hig
    | cons a l => rfl
  have hc : ign.contains e.Name = true := by simpa using hig
  rw [if_pos (by rw [hne, hc]; rfl)]

theorem diffEntry_notIgnored_cond (e : PatchFile) (ign : List String)
    (hig : e.Name ∉ ign) : (!ign.isEmpty && ign.contains e.Name) = false := by
  have hc : ign.contains e.Name = false := by simpa using hig
  rw [hc, Bool.and_false]

theorem diffEntry_absent (e : PatchFile) (disk : Disk) (p : String) (ign : List String)
    (hig : e.Name ∉ ign) (hdep : e.Deprecated = false)
    (habs : diskLookup disk e.Name = none) :
    diffEntry e disk p ign =
      ([{ Action := .download, File := e, D2Path := p, LocalCRC := "" }], e.ContentLength) := by
  unfold diffEntry
  rw [if_neg (by rw [diffEntry_notIgnored_cond e ign hig]; simp), if_neg (by rw [hdep]; simp)]
  have hh : hashCRC32 disk e.Name = .error .fileNotFound := by
    unfold hashCRC32
    rw [habs]
  rw [hh]

theorem diffEntry_dep_present (e : PatchFile) (disk : Disk) (p : String) (ign : List String)
    (c : String) (hig : e.Name ∉ ign) (hdep : e.Deprecated = true)
    (hpres : diskLookup disk e.Name = some c) :
    diffEntry e disk p ign =
      ([{ Action := .delete, File := e, D2Path := p, LocalCRC := c }], 0) := by
  unfold diffEntry
  rw [if_neg (by rw [diffEntry_notIgnored_cond e ign hig]; simp), if_pos (by rw [hdep])]
  have hex : fileExistsOnDisk disk e.Name = true := by
    unfold fileExistsOnDisk
    rw [hpres]
    rfl
  rw [if_pos hex]
  have hh : hashCRC32 disk e.Name = .ok c := by
    unfold hashCRC32
    rw [hpres]
  rw [hh]

theorem diffEntry_dep_absent (e : PatchFile) (disk : Disk) (p : String) (ign : List String)
    (hig : e.Name ∉ ign) (hdep : e.Deprecated = true)
    (habs : diskLookup disk e.Name = none) :
    diffEntry e disk p ign = ([], 0) := by
  unfold diffEntry
  rw [if_neg (by rw [diffEntry_notIgnored_cond e ign hig]; simp), if_pos (by rw [hdep])]
  have hex : fileExistsOnDisk disk e.Name = false := by
    unfold fileExistsOnDisk
    rw [habs]
    rfl
  rw [if_neg (by rw [hex]; simp)]

theorem diffEntry_present_ignoreCRC (e : PatchFile) (disk : Disk) (p : String)
    (ign : List String) (c : String) (hig : e.Name ∉ ign) (hdep : e.Deprecated = false)
    (hicrc : e.IgnoreCRC = true) (hpres : diskLookup disk e.Name = some c) :
    diffEntry e disk p ign = ([], 0) := by
  unfold diffEntry
  rw [if_neg (by rw [diffEntry_notIgnored_cond e ign hig]; simp), if_neg (by rw [hdep]; simp)]
  have hh : hashCRC32 disk e.Name = .ok c := by
    unfold hashCRC32
    rw [hpres]
  rw [hh]
  simp [hicrc]

theorem diffEntry_present_match (e : PatchFile) (disk : Disk) (p : String)
    (ign : List String) (hig : e.Name ∉ ign) (hdep : e.Deprecated = false)
    (hicrc : e.IgnoreCRC = false) (hpres : diskLookup disk e.Name = some e.CRC) :
    diffEntry e disk p ign = ([], 0) := by
  unfold diffEntry
  rw [if_neg (by rw [diffEntry_notIgnored_cond e ign hig]; simp), if_neg (by rw [hdep]; simp)]
  have hh : hashCRC32 disk e.Name = .ok e.CRC := by
    unfold hashCRC32
    rw [hpres]
  rw [hh]
  simp [hicrc]

theorem diffEntry_present_mismatch (e : PatchFile) (disk : Disk) (p : String)
    (ign : List String) (c : String) (hig : e.Name ∉ ign) (hdep : e.Deprecated = false)
    (hicrc : e.IgnoreCRC = false) (hpres : diskLookup disk e.Name = some c)
    (hne : c ≠ e.CRC) :
    diffEntry e disk p ign =
      ([{ Action := .download, File := e, D2Path := p, LocalCRC := c }], e.ContentLength) := by
  unfold diffEntry
  rw [if_neg (by rw [diffEntry_notIgnored_cond e ign hig]; simp), if_neg (by rw [hdep]; simp)]
  have hh : hashCRC32 disk e.Name = .ok c := by
    unfold hashCRC32
    rw [hpres]
  rw [hh]
  simp [hicrc, hne]

/-! ### Claims C2, C3, C4 -/

/-- C2: for every manifest entry that is not in the ignore list, has
`deprecated = false`, is listed once in the manifest, and whose file is
absent from the install directory, `getFilesToPatch` emits exactly one
`Download` action for that entry, and the returned total download size is
the sum of the content lengths of the emitted download actions — so that
entry's `contentLength` is accumulated into the total exactly once. -/
theorem C2_absent_entry_download (files : List PatchFile) (disk : Disk) (p : String)
    (ign : List String) (e : PatchFile)
    (hcount : files.countP (fun x => decide (x = e)) = 1)
    (hig : e.Name ∉ ign) (hdep : e.Deprecated = false)
    (habs : diskLookup disk e.Name = none) :
    ((getFilesToPatch files disk p ign).1.filter (fun a => decide (a.File = e))) =
      [{ Action := .download, File := e, D2Path := p, LocalCRC := "" }] ∧
    (getFilesToPatch files disk p ign).2 =
      (((getFilesToPatch files disk p ign).1.filter
          (fun a => decide (a.Action = Action.download))).map
        (fun a => a.File.ContentLength)).sum := by
  constructor
  · rw [getFilesToPatch_filter_file, hcount, diffEntry_absent e disk p ign hig hdep habs]
    rfl
  · exact getFilesToPatch_total files disk p ign

theorem C2_witness :
    (([({ Name := "b", CRC := "3", ContentLength := 7 } : PatchFile)].countP
        (fun x => decide (x = ({ Name := "b", CRC := "3", ContentLength := 7 } : PatchFile))) = 1) ∧
      ("b" ∉ ([] : List String))) ∧
    ((getFilesToPatch [{ Name := "b", CRC := "3", ContentLength := 7 }] [] "p" []).1.filter
        (fun a => decide (a.File = ({ Name := "b", CRC := "3", ContentLength := 7 } : PatchFile)))) =
      [{ Action := .download, File := { Name := "b", CRC := "3", ContentLength := 7 },
         D2Path := "p", LocalCRC := "" }] ∧
    (getFilesToPatch [{ Name := "b", CRC := "3", ContentLength := 7 }] [] "p" []).2 =
      (((getFilesToPatch [{ Name := "b", CRC := "3", ContentLength := 7 }] [] "p" []).1.filter
          (fun a => decide (a.Action = Action.download))).map
        (fun a => a.File.ContentLength)).sum :=
  ⟨⟨by decide, by decide⟩,
    C2_absent_entry_download _ _ _ _ _ (by decide) (by decide) rfl rfl⟩

/-- C3: for every manifest entry with `deprecated = true` that is not in the
ignore list and listed once in the manifest: if the file is present on disk,
`getFilesToPatch` emits exactly one `Delete` action for it carrying the
checksum of the local copy; if the file is absent, it emits no action for
that entry. -/
theorem C3_deprecated_delete (files : List PatchFile) (disk : Disk) (p : String)
    (ign : List String) (e : PatchFile)
    (hcount : files.countP (fun x => decide (x = e)) = 1)
    (hig : e.Name ∉ ign) (hdep : e.Deprecated = true) :
    (∀ c, diskLookup disk e.Name = some c →
      ((getFilesToPatch files disk p ign).1.filter (fun a => decide (a.File = e))) =
        [{ Action := .delete, File := e, D2Path := p, LocalCRC := c }]) ∧
    (diskLookup disk e.Name = none →
      ((getFilesToPatch files disk p ign).1.filter (fun a => decide (a.File = e))) = []) := by
  constructor
  · intro c hpres
    rw [getFilesToPatch_filter_file, hcount, diffEntry_dep_present e disk p ign c hig hdep hpres]
    rfl
  · intro habs
    rw [getFilesToPatch_filter_file, hcount, diffEntry_dep_absent e disk p ign hig hdep habs]
    rfl

theorem C3_witness :
    ((getFilesToPatch [{ Name := "old", CRC := "1", Deprecated := true }] [("old", "x")] "p"
        []).1.filter
      (fun a => decide (a.File = ({ Name := "old", CRC := "1", Deprecated := true } : PatchFile)))) =
      [{ Action := .delete, File := { Name := "old", CRC := "1", Deprecated := true },
         D2Path := "p", LocalCRC := "x" }] ∧
    ((getFilesToPatch [{ Name := "old", CRC := "1", Deprecated := true }] [] "p" []).1.filter
      (fun a => decide (a.File = ({ Name := "old", CRC := "1", Deprecated := true } : PatchFile)))) = [] :=
  ⟨(C3_deprecated_delete [{ Name := "old", CRC := "1", Deprecated := true }] [("old", "x")] "p" []
      _ (by decide) (by decide) rfl).1 "x" rfl,
   (C3_deprecated_delete [{ Name := "old", CRC := "1", Deprecated := true }] [] "p" []
      _ (by decide) (by decide) rfl).2 rfl⟩

/-- C4: for every manifest entry with `ignoreChecksum = true`, not in the
ignore list, listed once in the manifest, and present on disk,
`getFilesToPatch` emits no action for it unless the entry is deprecated;
the deprecation check runs before the ignore-checksum short-circuit, so a
deprecated `ignoreChecksum` entry present on disk is still emitted as a
`Delete`. -/
theorem C4_ignoreCRC_skip_unless_deprecated (files : List PatchFile) (disk : Disk)
    (p : String) (ign : List String) (e : PatchFile) (c : String)
    (hcount : files.countP (fun x => decide (x = e)) = 1)
    (hig : e.Name ∉ ign) (hicrc : e.IgnoreCRC = true)
    (hpres : diskLookup disk e.Name = some c) :
    (e.Deprecated = false →
      ((getFilesToPatch files disk p ign).1.filter (fun a => decide (a.File = e))) = []) ∧
    (e.Deprecated = true →
      ((getFilesToPatch files disk p ign).1.filter (fun a => decide (a.File = e))) =
        [{ Action := .delete, File := e, D2Path := p, LocalCRC := c }]) := by
  constructor
  · intro hdep
    rw [getFilesToPatch_filter_file, hcount,
      diffEntry_present_ignoreCRC e disk p ign c hig hdep hicrc hpres]
    rfl
  · intro hdep
    rw [getFilesToPatch_filter_file, hcount, diffEntry_dep_present e disk p ign c hig hdep hpres]
    rfl

theorem C4_witness :
    ((getFilesToPatch [{ Name := "cfg", CRC := "1", IgnoreCRC := true }] [("cfg", "z")] "p"
        []).1.filter
      (fun a => decide (a.File = ({ Name := "cfg", CRC := "1", IgnoreCRC := true } : PatchFile)))) = [] ∧
    ((getFilesToPatch [{ Name := "cfg", CRC := "1", IgnoreCRC := true, Deprecated := true }]
        [("cfg", "z")] "p" []).1.filter
      (fun a => decide (a.File =
        ({ Name := "cfg", CRC := "1", IgnoreCRC := true, Deprecated := true } : PatchFile)))) =
      [{ Action := .delete,
         File := { Name := "cfg", CRC := "1", IgnoreCRC := true, Deprecated := true },
         D2Path := "p", LocalCRC := "z" }] :=
  ⟨(C4_ignoreCRC_skip_unless_deprecated [{ Name := "cfg", CRC := "1", IgnoreCRC := true }]
      [("cfg", "z")] "p" [] { Name := "cfg", CRC := "1", IgnoreCRC := true } "z"
      (by decide) (by decide) rfl rfl).1 rfl,
   (C4_ignoreCRC_skip_unless_deprecated
      [{ Name := "cfg", CRC := "1", IgnoreCRC := true, Deprecated := true }]
      [("cfg", "z")] "p" [] { Name := "cfg", CRC := "1", IgnoreCRC := true, Deprecated := true } "z"
      (by decide) (by decide) rfl rfl).2 rfl⟩

/-! ### Helper lemmas: cleanup and the patch applier -/

theorem cleanUpFold_clean (ns : List String) :
    ∀ (d : Disk) (n : String), strContains n tmpExt = false →
      diskLookup
        (ns.foldl (fun d fileName =>
          if strContains fileName tmpExt then diskRemove d fileName else d) d) n
      = diskLookup d n := by
  induction ns with
  | nil => intro d n _; rfl
  | cons fn rest ih =>
    intro d n hn
    rw [List.foldl_cons]
    by_cases hc : strContains fn tmpExt = true
    · rw [if_pos hc, ih _ n hn, diskLookup_remove_ne _ _ _ (by
        intro hcontra
        rw [hcontra, hc] at hn
        exact Bool.noConfusion hn)]
    · rw [if_neg hc, ih _ n hn]

theorem cleanUpFold_removed (ns : List String) :
    ∀ (d : Disk) (m : String), strContains m tmpExt = true →
      (m ∈ ns ∨ diskLookup d m = none) →
      diskLookup
        (ns.foldl (fun d fileName =>
          if strContains fileName tmpExt then diskRemove d fileName else d) d) m
      = none := by
  induction ns with
  | nil =>
    intro d m _ hm
    cases hm with
    | inl h => simp at h
    | inr h => exact h
  | cons fn rest ih =>
    intro d m hm hmem
    rw [List.foldl_cons]
    cases hmem with
    | inl h =>
      rcases List.mem_cons.mp h with h1 | h2
      · subst h1
        rw [if_pos hm]
        exact ih _ m hm (Or.inr (diskLookup_remove_self d m))
      · exact ih _ m hm (Or.inl h2)
    | inr h =>
      by_cases hc : strContains fn tmpExt = true
      · rw [if_pos hc]
        exact ih _ m hm (Or.inr (diskLookup_remove_none d fn m h))
      · rw [if_neg hc]
        exact ih _ m hm (Or.inr h)

/-- C7 (amended): `cleanUpFailedPatch` removes exactly those files whose
name *contains* the substring `.tmp` (in particular every `.tmp`-suffixed
file), and leaves every other file unchanged.  The source uses
`strings.Contains`, not a suffix test. -/
theorem C7_cleanup_removes_contains_tmp (d : Disk) (n : String) :
    diskLookup (cleanUpFailedPatch d) n =
      if strContains n tmpExt = true then none else diskLookup d n := by
  unfold cleanUpFailedPatch
  by_cases hc : strContains n tmpExt = true
  · rw [if_pos hc]
    cases hl : diskLookup d n with
    | none => exact cleanUpFold_removed _ d n hc (Or.inr hl)
    | some v =>
      exact cleanUpFold_removed _ d n hc (Or.inl (diskLookup_mem_keys d n v hl))
  · rw [if_neg hc]
    exact cleanUpFold_clean _ d n (Bool.not_eq_true _ ▸ eq_false_of_ne_true hc)

/-- C7 is false as stated: `cleanUpFailedPatch` also removes a file whose
name merely contains `.tmp` without ending in it — here `a.tmp.bak`. -/
theorem C7_counterexample :
    strEndsWith "a.tmp.bak" tmpExt = false ∧
    diskLookup (cleanUpFailedPatch [("a.tmp.bak", "1")]) "a.tmp.bak" = none := by
  decide

theorem doPatchActions_error_clean (remote : String → Option String) (remoteDir : String) :
    ∀ (actions : List PatchAction) (disk : Disk) (tmps : List String) (dErr : Disk),
      (∀ a ∈ actions, a.Action = Action.download) →
      (∀ a ∈ actions, strContains a.File.Name tmpExt = false) →
      doPatchActions remote remoteDir actions disk tmps = .error dErr →
      ∀ n, strContains n tmpExt = false → diskLookup dErr n = diskLookup disk n
  | [], disk, tmps, dErr, _, _, h => by simp [doPatchActions] at h
  | a :: rest, disk, tmps, dErr, hdl, hnm, h => by
    intro n hn
    have ha : a.Action = Action.download := hdl a (List.mem_cons_self a rest)
    have hne : n ≠ a.File.Name ++ tmpExt := by
      intro hcontra
      rw [hcontra, strContains_append_tmpExt] at hn
      exact Bool.noConfusion hn
    simp only [doPatchActions] at h
    rw [ha] at h
    unfold downloadFile at h
    cases hrem : remote (remoteDir ++ "/" ++ a.File.Name) with
    | none =>
      rw [hrem] at h
      simp only [Except.error.injEq] at h
      rw [← h]
      exact diskLookup_set_ne disk _ "" n hne
    | some contents =>
      rw [hrem] at h
      simp only at h
      have ihres := doPatchActions_error_clean remote remoteDir rest
        (diskSet (diskSet disk (a.File.Name ++ tmpExt) "") (a.File.Name ++ tmpExt) contents)
        (tmps ++ [a.File.Name ++ tmpExt]) dErr
        (fun b hb => hdl b (List.mem_cons_of_mem a hb))
        (fun b hb => hnm b (List.mem_cons_of_mem a hb)) h n hn
      rw [ihres, diskLookup_set_ne _ _ _ n hne, diskLookup_set_ne _ _ _ n hne]

/-- C1 (amended): for every batch of download actions none of whose file
names contains `.tmp`, if `doPatch` fails on one of the downloads then no
`.tmp` file has been promoted — every file whose name does not contain
`.tmp`, in particular every download's final name and every
already-correct final file, still has its pre-patch content at the moment
of failure — and the subsequent `cleanUpFailedPatch` removes every file
whose name contains `.tmp` (hence all `.tmp` artifacts) while leaving every
other file unchanged from its pre-patch state. -/
theorem C1_failed_batch_atomic (remote : String → Option String) (remoteDir : String)
    (actions : List PatchAction) (disk dErr : Disk)
    (hdl : ∀ a ∈ actions, a.Action = Action.download)
    (hnm : ∀ a ∈ actions, strContains a.File.Name tmpExt = false)
    (hfail : doPatch remote actions remoteDir disk = .error dErr) :
    (∀ n, strContains n tmpExt = false → diskLookup dErr n = diskLookup disk n) ∧
    (∀ n, strContains n tmpExt = false →
      diskLookup (cleanUpFailedPatch dErr) n = diskLookup disk n) ∧
    (∀ m, strContains m tmpExt = true → diskLookup (cleanUpFailedPatch dErr) m = none) := by
  have h0 : doPatchActions remote remoteDir actions disk [] = .error dErr := by
    unfold doPatch at hfail
    cases hact : doPatchActions remote remoteDir actions disk [] with
    | error d =>
      rw [hact] at hfail
      simp only [Except.error.injEq] at hfail
      exact congrArg Except.error hfail
    | ok pair => rw [hact] at hfail; exact absurd hfail (by simp)
  have hpres := doPatchActions_error_clean remote remoteDir actions disk [] dErr hdl hnm h0
  refine ⟨hpres, fun n hn => ?_, fun m hm => ?_⟩
  · rw [C7_cleanup_removes_contains_tmp, if_neg (by rw [hn]; simp), hpres n hn]
  · rw [C7_cleanup_removes_contains_tmp, if_pos hm]

/-- C1 is false as stated: with manifest entries `a.tmp` (already correct
on disk) and `b` (absent), the diff downloads only `b`; when that download
fails, cleanup removes the already-correct final file `a.tmp` as well,
because cleanup matches any name containing `.tmp`. -/
theorem C1_counterexample :
    (getFilesToPatch [{ Name := "a.tmp", CRC := "1" }, { Name := "b", CRC := "3" }]
        [("a.tmp", "1")] "p" []).1 =
      [{ Action := .download, File := { Name := "b", CRC := "3" }, D2Path := "p",
         LocalCRC := "" }] ∧
    doPatch (fun _ => none)
        [{ Action := .download, File := { Name := "b", CRC := "3" }, D2Path := "p",
           LocalCRC := "" }]
        "r" [("a.tmp", "1")] = .error [("b.tmp", ""), ("a.tmp", "1")] ∧
    diskLookup [("a.tmp", "1")] "a.tmp" = some "1" ∧
    diskLookup (cleanUpFailedPatch [("b.tmp", ""), ("a.tmp", "1")]) "a.tmp" = none := by
  refine ⟨by decide, by rfl, by decide, by decide⟩

theorem C1_witness :
    diskLookup [("b.tmp", ""), ("a", "1")] "a" = diskLookup [("a", "1")] "a" ∧
    diskLookup (cleanUpFailedPatch [("b.tmp", ""), ("a", "1")]) "a" =
      diskLookup [("a", "1")] "a" ∧
    diskLookup (cleanUpFailedPatch [("b.tmp", ""), ("a", "1")]) "b.tmp" = none := by
  have h := C1_failed_batch_atomic (fun _ => none) "r"
    [{ Action := .download, File := { Name := "b", CRC := "3" }, D2Path := "p", LocalCRC := "" }]
    [("a", "1")] [("b.tmp", ""), ("a", "1")]
    (by decide) (by decide) (by rfl)
  exact ⟨h.1 "a" (by decide), h.2.1 "a" (by decide), h.2.2 "b.tmp" (by decide)⟩

/-! ### Claim C9: round-trip of diff and apply -/

theorem ignoredCond_true (e : PatchFile) (ign : List String) (hig : e.Name ∈ ign) :
    (!ign.isEmpty && ign.contains e.Name) = true := by
  have hne : ign.isEmpty = false := by
    cases ign with
    | nil => simp at hig
    | cons a l => rfl
  have hc : ign.contains e.Name = true := by simpa using hig
  rw [hne, hc]
  rfl

theorem getFilesToPatch_names (files : List PatchFile) (disk : Disk) (p : String)
    (ign : List String) :
    ∀ a ∈ (getFilesToPatch files disk p ign).1, a.File.Name ∈ files.map (fun f => f.Name) := by
  induction files with
  | nil => intro a ha; simp [getFilesToPatch] at ha
  | cons f rest ih =>
    intro a ha
    rw [getFilesToPatch_cons] at ha
    rcases List.mem_append.mp ha with h1 | h2
    · rw [diffEntry_file f disk p ign a h1]
      simp
    · simp only [List.map_cons, List.mem_cons]
      right
      exact ih a h2

theorem applyDiffActions_nil (d : Disk) : applyDiffActions [] d = d := rfl

theorem applyDiffActions_cons (a : PatchAction) (rest : List PatchAction) (d : Disk) :
    applyDiffActions (a :: rest) d =
      applyDiffActions rest
        (match a.Action with
         | Action.download => diskSet d a.File.Name a.File.CRC
         | Action.delete => diskRemove d a.File.Name) := rfl

theorem applyDiffActions_other (actions : List PatchAction) :
    ∀ (d : Disk) (n : String), (∀ a ∈ actions, a.File.Name ≠ n) →
      diskLookup (applyDiffActions actions d) n = diskLookup d n := by
  induction actions with
  | nil => intro d n _; rfl
  | cons a rest ih =>
    intro d n h
    have ha : a.File.Name ≠ n := h a (List.mem_cons_self a rest)
    have hstep : diskLookup
        (match a.Action with
         | Action.download => diskSet d a.File.Name a.File.CRC
         | Action.delete => diskRemove d a.File.Name) n = diskLookup d n := by
      cases a.Action with
      | download => exact diskLookup_set_ne _ _ _ n (fun hc => ha hc.symm)
      | delete => exact diskLookup_remove_ne _ _ _ (fun hc => ha hc.symm)
    rw [applyDiffActions_cons]
    exact (ih _ n (fun b hb => h b (List.mem_cons_of_mem a hb))).trans hstep

theorem applyDiffActions_append (l1 l2 : List PatchAction) (d : Disk) :
    applyDiffActions (l1 ++ l2) d = applyDiffActions l2 (applyDiffActions l1 d) := by
  unfold applyDiffActions
  exact List.foldl_append _ _ l1 l2

theorem afterLookup_notIgnored (g : PatchFile) (ign : List String) (pre : Option String)
    (hig : g.Name ∉ ign) :
    afterLookup g ign pre =
      if g.Deprecated then none
      else
        match pre with
        | none => some g.CRC
        | some c => if g.IgnoreCRC then some c else if c != g.CRC then some g.CRC else some c := by
  unfold afterLookup
  rw [if_neg (by rw [diffEntry_notIgnored_cond g ign hig]; simp)]

theorem applyDiffActions_self (g : PatchFile) (disk : Disk) (p : String) (ign : List String)
    (d₀ : Disk) (hpre : diskLookup d₀ g.Name = diskLookup disk g.Name) :
    diskLookup (applyDiffActions (diffEntry g disk p ign).1 d₀) g.Name =
      afterLookup g ign (diskLookup disk g.Name) := by
  by_cases hig : g.Name ∈ ign
  · rw [diffEntry_ignored g disk p ign hig]
    unfold afterLookup
    rw [if_pos (by rw [ignoredCond_true g ign hig])]
    exact hpre
  · rw [afterLookup_notIgnored g ign _ hig]
    by_cases hdep : g.Deprecated = true
    · rw [if_pos hdep]
      cases hl : diskLookup disk g.Name with
      | some c =>
        rw [diffEntry_dep_present g disk p ign c hig hdep hl]
        show diskLookup (applyDiffActions [_] d₀) g.Name = none
        rw [applyDiffActions_cons, applyDiffActions_nil]
        exact diskLookup_remove_self d₀ g.Name
      | none =>
        rw [diffEntry_dep_absent g disk p ign hig hdep hl]
        show diskLookup d₀ g.Name = none
        rw [hpre, hl]
    · have hdep' : g.Deprecated = false := by revert hdep; cases g.Deprecated <;> simp
      rw [if_neg hdep]
      cases hl : diskLookup disk g.Name with
      | none =>
        rw [diffEntry_absent g disk p ign hig hdep' hl]
        show diskLookup (applyDiffActions [_] d₀) g.Name = some g.CRC
        rw [applyDiffActions_cons, applyDiffActions_nil]
        exact diskLookup_set_self d₀ g.Name g.CRC
      | some c =>
        by_cases hicrc : g.IgnoreCRC = true
        · rw [diffEntry_present_ignoreCRC g disk p ign c hig hdep' hicrc hl]
          show diskLookup d₀ g.Name = if g.IgnoreCRC = true then some c
            else if (c != g.CRC) = true then some g.CRC else some c
          rw [hpre, hl, if_pos hicrc]
        · have hicrc' : g.IgnoreCRC = false := by revert hicrc; cases g.IgnoreCRC <;> simp
          by_cases hcrc : c = g.CRC
          · rw [diffEntry_present_match g disk p ign hig hdep' hicrc' (by rw [hl, hcrc])]
            show diskLookup d₀ g.Name = if g.IgnoreCRC = true then some c
              else if (c != g.CRC) = true then some g.CRC else some c
            rw [hpre, hl, if_neg hicrc, if_neg (by simp [hcrc])]
          · rw [diffEntry_present_mismatch g disk p ign c hig hdep' hicrc' hl hcrc]
            show diskLookup (applyDiffActions [_] d₀) g.Name =
              if g.IgnoreCRC = true then some c
              else if (c != g.CRC) = true then some g.CRC else some c
            rw [applyDiffActions_cons, applyDiffActions_nil,
              if_neg hicrc, if_pos (by simpa using hcrc)]
            exact diskLookup_set_self d₀ g.Name g.CRC

theorem applyDiff_lookup (p : String) (ign : List String) :
    ∀ (files : List PatchFile) (disk d₀ : Disk),
      (files.map (fun f => f.Name)).Nodup →
      (∀ f ∈ files, diskLookup d₀ f.Name = diskLookup disk f.Name) →
      ∀ f ∈ files,
        diskLookup (applyDiffActions (getFilesToPatch files disk p ign).1 d₀) f.Name =
          afterLookup f ign (diskLookup disk f.Name) := by
  intro files
  induction files with
  | nil => intro disk d₀ _ _ f hf; simp at hf
  | cons g rest ih =>
    intro disk d₀ hnodup hpre f hf
    rw [getFilesToPatch_cons, applyDiffActions_append]
    have hnodup' : (g.Name :: rest.map (fun f => f.Name)).Nodup := by
      rw [List.map_cons] at hnodup
      exact hnodup
    have hnd := List.nodup_cons.mp hnodup'
    rcases List.mem_cons.mp hf with hfg | hfr
    · subst hfg
      have hother : ∀ a ∈ (getFilesToPatch rest disk p ign).1, a.File.Name ≠ f.Name := by
        intro a ha hEq
        exact hnd.1 (hEq ▸ getFilesToPatch_names rest disk p ign a ha)
      rw [applyDiffActions_other _ _ _ hother]
      exact applyDiffActions_self f disk p ign d₀ (hpre f (List.mem_cons_self f rest))
    · have hne : f.Name ≠ g.Name := by
        intro hEq
        exact hnd.1 (hEq ▸ List.mem_map_of_mem (fun x => x.Name) hfr)
      have hgacts : ∀ a ∈ (diffEntry g disk p ign).1, a.File.Name ≠ f.Name := by
        intro a ha hEq
        rw [diffEntry_file g disk p ign a ha] at hEq
        exact hne hEq.symm
      have hpre' : ∀ x ∈ rest,
          diskLookup (applyDiffActions (diffEntry g disk p ign).1 d₀) x.Name =
            diskLookup disk x.Name := by
        intro x hx
        have hxg : x.Name ≠ g.Name := by
          intro hEq
          exact hnd.1 (hEq ▸ List.mem_map_of_mem (fun y => y.Name) hx)
        have : ∀ a ∈ (diffEntry g disk p ign).1, a.File.Name ≠ x.Name := by
          intro a ha hEq
          rw [diffEntry_file g disk p ign a ha] at hEq
          exact hxg hEq.symm
        rw [applyDiffActions_other _ _ _ this]
        exact hpre x (List.mem_cons_of_mem g hx)
      exact ih disk (applyDiffActions (diffEntry g disk p ign).1 d₀) hnd.2 hpre' f hfr

theorem diffEntry_after (f : PatchFile) (disk d' : Disk) (p : String) (ign : List String)
    (h : diskLookup d' f.Name = afterLookup f ign (diskLookup disk f.Name)) :
    diffEntry f d' p ign = ([], 0) := by
  by_cases hig : f.Name ∈ ign
  · exact diffEntry_ignored f d' p ign hig
  · have hcond := diffEntry_notIgnored_cond f ign hig
    unfold afterLookup at h
    rw [if_neg (by rw [hcond]; simp)] at h
    cases hdep : f.Deprecated with
    | true =>
      rw [if_pos (by rw [hdep])] at h
      exact diffEntry_dep_absent f d' p ign hig hdep h
    | false =>
      rw [if_neg (by rw [hdep]; simp)] at h
      cases hicrc : f.IgnoreCRC with
      | true =>
        cases hl : diskLookup disk f.Name with
        | none =>
          rw [hl] at h
          exact diffEntry_present_ignoreCRC f d' p ign f.CRC hig hdep hicrc h
        | some c =>
          rw [hl] at h
          simp only [hicrc, if_true] at h
          exact diffEntry_present_ignoreCRC f d' p ign c hig hdep hicrc h
      | false =>
        cases hl : diskLookup disk f.Name with
        | none =>
          rw [hl] at h
          exact diffEntry_present_match f d' p ign hig hdep hicrc h
        | some c =>
          rw [hl] at h
          simp only [hicrc, Bool.false_eq_true, if_false] at h
          by_cases hcrc : c = f.CRC
          · rw [show (c != f.CRC) = false by simpa using hcrc] at h
            simp only [if_false, Bool.false_eq_true] at h
            rw [hcrc] at h
            exact diffEntry_present_match f d' p ign hig hdep hicrc h
          · rw [show (c != f.CRC) = true by simpa using hcrc] at h
            simp only [if_true] at h
            exact diffEntry_present_match f d' p ign hig hdep hicrc h

theorem getFilesToPatch_empty (files : List PatchFile) (d' : Disk) (p : String)
    (ign : List String) (h : ∀ f ∈ files, diffEntry f d' p ign = ([], 0)) :
    getFilesToPatch files d' p ign = ([], 0) := by
  induction files with
  | nil => rfl
  | cons f rest ih =>
    rw [getFilesToPatch_cons, h f (List.mem_cons_self f rest),
      ih (fun g hg => h g (List.mem_cons_of_mem f hg))]
    rfl

/-- C9 (amended): for a manifest with pairwise-distinct entry names, if
*all* actions of a diff are applied — each `Download` replacing the file's
content by remote content whose checksum equals the entry's remote
checksum, and each `Delete` removing the file — then re-running
`getFilesToPatch` with the same manifest and ignore list against the
resulting directory yields an empty action list (and a zero total). -/
theorem C9_roundtrip_apply_all (files : List PatchFile) (disk : Disk) (p : String)
    (ign : List String) (hnodup : (files.map (fun f => f.Name)).Nodup) :
    getFilesToPatch files
      (applyDiffActions (getFilesToPatch files disk p ign).1 disk) p ign = ([], 0) := by
  apply getFilesToPatch_empty
  intro f hf
  exact diffEntry_after f disk _ p ign
    (applyDiff_lookup p ign files disk disk hnodup (fun _ _ => rfl) f hf)

/-- C9 is false as stated: a deprecated entry present on disk produces a
`Delete` action; applying only the `Download` actions leaves it in place,
so the re-run diff emits the same `Delete` again instead of being empty. -/
theorem C9_counterexample :
    (getFilesToPatch [{ Name := "old", CRC := "1", Deprecated := true }] [("old", "x")]
        "p" []).1 =
      [{ Action := .delete, File := { Name := "old", CRC := "1", Deprecated := true },
         D2Path := "p", LocalCRC := "x" }] ∧
    getFilesToPatch [{ Name := "old", CRC := "1", Deprecated := true }]
        (applyDownloadActions
          (getFilesToPatch [{ Name := "old", CRC := "1", Deprecated := true }]
            [("old", "x")] "p" []).1
          [("old", "x")]) "p" [] ≠ ([], 0) := by
  decide

theorem C9_witness :
    getFilesToPatch
      [{ Name := "a", CRC := "2" }, { Name := "old", CRC := "1", Deprecated := true }]
      (applyDiffActions
        (getFilesToPatch
          [{ Name := "a", CRC := "2" }, { Name := "old", CRC := "1", Deprecated := true }]
          [("old", "x")] "p" []).1
        [("old", "x")]) "p" [] = ([], 0) :=
  C9_roundtrip_apply_all
    [{ Name := "a", CRC := "2" }, { Name := "old", CRC := "1", Deprecated := true }]
    [("old", "x")] "p" [] (by decide)

/-! ### Claim C5: mod reset -/

theorem resetFold_none (filesToIgnore : List String) :
    ∀ (files : List PatchFile) (d : Disk) (n : String),
      diskLookup d n = none →
      diskLookup
        (files.foldl (fun d file =>
          if fileExistsOnDisk d file.Name then
            if filesToIgnore.contains file.Name then d else diskRemove d file.Name
          else d) d) n = none := by
  intro files
  induction files with
  | nil => intro d n h; exact h
  | cons g rest ih =>
    intro d n h
    rw [List.foldl_cons]
    apply ih
    split
    · split
      · exact h
      · exact diskLookup_remove_none d g.Name n h
    · exact h

theorem resetFold_removes (filesToIgnore : List String) :
    ∀ (files : List PatchFile) (d : Disk) (f : PatchFile),
      f ∈ files → f.Name ∉ filesToIgnore →
      diskLookup
        (files.foldl (fun d file =>
          if fileExistsOnDisk d file.Name then
            if filesToIgnore.contains file.Name then d else diskRemove d file.Name
          else d) d) f.Name = none := by
  intro files
  induction files with
  | nil => intro d f hf _; simp at hf
  | cons g rest ih =>
    intro d f hf hig
    rw [List.foldl_cons]
    rcases List.mem_cons.mp hf with hfg | hfr
    · subst hfg
      apply resetFold_none
      have hc : filesToIgnore.contains f.Name = false := by simpa using hig
      by_cases hex : fileExistsOnDisk d f.Name = true
      · rw [if_pos hex, if_neg (by rw [hc]; simp)]
        exact diskLookup_remove_self d f.Name
      · rw [if_neg hex]
        unfold fileExistsOnDisk at hex
        cases hlu : diskLookup d f.Name with
        | none => rfl
        | some v => rw [hlu] at hex; simp at hex
    · exact ih _ f hfr hig

theorem resetPatch_removes (files : List PatchFile) (disk : Disk) (p : String)
    (ign : List String)
    (hguard : (getFilesToPatch files disk p ign).1.length ≠ files.length) :
    ∀ f ∈ files, f.Name ∉ ign →
      diskLookup (resetPatch files disk p ign) f.Name = none := by
  intro f hf hig
  unfold resetPatch
  rw [if_pos (by simpa using hguard)]
  exact resetFold_removes ign files disk f hf hig

/-- C5 (amended): for a mod category with versions `{A, B}`, desired
version `A`, and `B`'s marker file present on disk (`B` detected as
installed), reset-mode reconciliation removes every file of `B`'s manifest
from disk — *provided* the diff of `B`'s manifest reports fewer mismatched
files than the manifest has entries.  (When every entry of `B`'s manifest
mismatches, `resetPatch`'s guard skips the deletion loop entirely, so the
claim's "regardless of how many of B's files currently mismatch" fails.) -/
theorem C5_reset_removes_other_version (manifests : String → Manifest) (g : Game)
    (disk : Disk) (A B : String)
    (hdes : g.HDVersion = A) (hAB : A ≠ B)
    (hinst : isModInstalled disk ModHDIdentifier
      (manifests ("hd_" ++ B ++ "/manifest.json")) = true)
    (hguard : (getFilesToPatch (manifests ("hd_" ++ B ++ "/manifest.json")).Files disk
        g.Location []).1.length ≠ (manifests ("hd_" ++ B ++ "/manifest.json")).Files.length) :
    ∀ f ∈ (manifests ("hd_" ++ B ++ "/manifest.json")).Files,
      diskLookup (resetHDPatch manifests { Maphack := [], HD := [A, B] } g disk) f.Name
        = none := by
  intro f hf
  unfold resetHDPatch
  simp only [List.foldl_cons, List.foldl_nil]
  have hA : (g.HDVersion == A) = true := by rw [hdes]; simp
  have hB : (g.HDVersion == B) = false := by rw [hdes]; simpa using hAB
  rw [if_pos hA, if_neg (by rw [hB]; simp), if_pos hinst]
  exact resetPatch_removes _ disk g.Location [] hguard f hf (by simp)

/-- C5 is false as stated: when *every* file of `B`'s manifest mismatches
(here `B`'s only file, the marker itself, is present but drifted),
`resetPatch`'s `len(missmatched) != len(files)` guard skips the deletion
loop, and the leftover file of the installed non-desired version `B`
survives reset-mode reconciliation. -/
theorem C5_counterexample :
    isModInstalled [("d2hd.dll", "2")] ModHDIdentifier
      ((fun s => if s == "hd_B/manifest.json" then
          ({ Files := [{ Name := "d2hd.dll", CRC := "1" }] } : Manifest)
        else { Files := [] }) "hd_B/manifest.json") = true ∧
    diskLookup
      (resetHDPatch
        (fun s => if s == "hd_B/manifest.json" then
            { Files := [{ Name := "d2hd.dll", CRC := "1" }] }
          else { Files := [] })
        { Maphack := [], HD := ["A", "B"] }
        { HDVersion := "A", Location := "p" }
        [("d2hd.dll", "2")]) "d2hd.dll" = some "2" := by
  decide

theorem C5_witness :
    diskLookup
      (resetHDPatch
        (fun s => if s == "hd_B/manifest.json" then
            { Files := [{ Name := "d2hd.dll", CRC := "1" }, { Name := "x.dll", CRC := "2" }] }
          else { Files := [] })
        { Maphack := [], HD := ["A", "B"] }
        { HDVersion := "A", Location := "p" }
        [("d2hd.dll", "1")]) "d2hd.dll" = none := by
  have h := C5_reset_removes_other_version
    (fun s => if s == "hd_B/manifest.json" then
        { Files := [{ Name := "d2hd.dll", CRC := "1" }, { Name := "x.dll", CRC := "2" }] }
      else { Files := [] })
    { HDVersion := "A", Location := "p" } [("d2hd.dll", "1")] "A" "B"
    rfl (by decide) (by decide) (by decide)
  exact h { Name := "d2hd.dll", CRC := "1" } (by decide)

/-! ### Claim C6: validate-mode reconciliation of a conflicting mod version -/

theorem patchFilesToBeDeleted_ok (disk : Disk) (p : String) :
    ∀ files : List PatchFile,
      (∀ f ∈ files, fileExistsOnDisk disk f.Name = true) →
      ∃ actions, patchFilesToBeDeleted disk p files = .ok actions ∧
        ∀ f ∈ files, ∃ c, diskLookup disk f.Name = some c ∧
          ({ Action := .delete, File := f, D2Path := p, LocalCRC := c } : PatchAction)
            ∈ actions := by
  intro files
  induction files with
  | nil => intro _; exact ⟨[], rfl, by simp⟩
  | cons g rest ih =>
    intro hpres
    have hg := hpres g (List.mem_cons_self g rest)
    unfold fileExistsOnDisk at hg
    cases hlu : diskLookup disk g.Name with
    | none => rw [hlu] at hg; simp at hg
    | some c =>
      obtain ⟨actions, hok, hmem⟩ := ih (fun f hf => hpres f (List.mem_cons_of_mem g hf))
      refine ⟨{ Action := .delete, File := g, D2Path := p, LocalCRC := c } :: actions, ?_, ?_⟩
      · unfold patchFilesToBeDeleted
        have hh : hashCRC32 disk g.Name = .ok c := by unfold hashCRC32; rw [hlu]
        rw [hh, hok]
      · intro f hf
        rcases List.mem_cons.mp hf with hfg | hfr
        · subst hfg; exact ⟨c, hlu, List.mem_cons_self _ _⟩
        · obtain ⟨c', hc', hm⟩ := hmem f hfr
          exact ⟨c', hc', List.mem_cons_of_mem _ hm⟩

theorem validateMaphackLoop_cons_eq (manifests : String → Manifest) (disk : Disk) (g : Game)
    (v : String) (rest : List String) (isValid : Bool) (model : List ModelFile) :
    validateMaphackVersionLoop manifests disk g (v :: rest) isValid model =
      if g.MaphackVersion == v then
        if (getFilesToPatch (manifests ("maphack_" ++ v ++ "/manifest.json")).Files disk
              g.Location (maphackIgnoredFiles g)).1.length > 0 then
          validateMaphackVersionLoop manifests disk g rest false
            (addFilesToModel model
              (getFilesToPatch (manifests ("maphack_" ++ v ++ "/manifest.json")).Files disk
                g.Location (maphackIgnoredFiles g)).1)
        else validateMaphackVersionLoop manifests disk g rest isValid model
      else
        if isModInstalled disk ModMaphackIdentifier
            (manifests ("maphack_" ++ v ++ "/manifest.json")) then
          match addPatchFilesToBeDeleted disk g.Location
              (manifests ("maphack_" ++ v ++ "/manifest.json")).Files model with
          | .error e => (.error e, model)
          | .ok model2 => validateMaphackVersionLoop manifests disk g rest false model2
        else validateMaphackVersionLoop manifests disk g rest isValid model := rfl

theorem addPatchFilesToBeDeleted_extends (disk : Disk) (p : String)
    (files : List PatchFile) (model model2 : List ModelFile)
    (hdel : addPatchFilesToBeDeleted disk p files model = .ok model2) :
    ∃ s, model2 = model ++ s := by
  unfold addPatchFilesToBeDeleted at hdel
  cases hpf : patchFilesToBeDeleted disk p files with
  | error e => rw [hpf] at hdel; simp at hdel
  | ok actions =>
    rw [hpf] at hdel
    simp only [Except.ok.injEq] at hdel
    exact ⟨_, hdel.symm⟩

theorem validateMaphackLoop_mono (manifests : String → Manifest) (disk : Disk) (g : Game) :
    ∀ (versions : List String) (isValid : Bool) (model : List ModelFile),
      ∃ t, (validateMaphackVersionLoop manifests disk g versions isValid model).2
        = model ++ t := by
  intro versions
  induction versions with
  | nil => intro isValid model; exact ⟨[], by simp [validateMaphackVersionLoop]⟩
  | cons v rest ih =>
    intro isValid model
    rw [validateMaphackLoop_cons_eq]
    split
    · split
      · obtain ⟨t, ht⟩ := ih false
          (addFilesToModel model
            (getFilesToPatch (manifests ("maphack_" ++ v ++ "/manifest.json")).Files disk
              g.Location (maphackIgnoredFiles g)).1)
        exact ⟨_, by rw [ht]; unfold addFilesToModel; rw [List.append_assoc]⟩
      · exact ih isValid model
    · split
      · cases hdel : addPatchFilesToBeDeleted disk g.Location
          (manifests ("maphack_" ++ v ++ "/manifest.json")).Files model with
        | error e => exact ⟨[], by simp⟩
        | ok model2 =>
          obtain ⟨s, hs⟩ := addPatchFilesToBeDeleted_extends disk g.Location _ model model2 hdel
          obtain ⟨t, ht⟩ := ih false model2
          refine ⟨s ++ t, ?_⟩
          show (validateMaphackVersionLoop manifests disk g rest false model2).2
            = model ++ (s ++ t)
          rw [ht, hs, List.append_assoc]
      · exact ih isValid model

theorem validateMaphackLoop_false (manifests : String → Manifest) (disk : Disk) (g : Game) :
    ∀ (versions : List String) (model : List ModelFile) (b : Bool),
      (validateMaphackVersionLoop manifests disk g versions false model).1 = .ok b →
      b = false := by
  intro versions
  induction versions with
  | nil =>
    intro model b h
    simp only [validateMaphackVersionLoop, Except.ok.injEq] at h
    exact h.symm
  | cons v rest ih =>
    intro model b h
    rw [validateMaphackLoop_cons_eq] at h
    split at h
    · split at h
      · exact ih _ b h
      · exact ih _ b h
    · split at h
      · cases hdel : addPatchFilesToBeDeleted disk g.Location
          (manifests ("maphack_" ++ v ++ "/manifest.json")).Files model with
        | error e => rw [hdel] at h; simp at h
        | ok model2 => rw [hdel] at h; exact ih _ b h
      · exact ih _ b h

/-- C6 (amended): for the first non-desired maphack version in the
candidate list whose marker file is present on disk (detected as
installed), *provided every file of that version's manifest is present on
disk*, validation queues every one of the version's manifest files as a
`Delete` row in the display model and — when the remaining loop finishes
without error — returns not-up-to-date (`isValid = false`).  When some
manifest file of the installed version is absent,
`addPatchFilesToBeDeleted`'s checksum step fails and validation instead
returns that error, so the original claim's "without returning an error
merely because some of that version's manifest files are absent" does not
hold of the code. -/
theorem C6_conflicting_version_queued (manifests : String → Manifest) (disk : Disk)
    (g : Game) (v : String) (rest : List String) (model : List ModelFile)
    (hv : (g.MaphackVersion == v) = false)
    (hinst : isModInstalled disk ModMaphackIdentifier
      (manifests ("maphack_" ++ v ++ "/manifest.json")) = true)
    (hpres : ∀ f ∈ (manifests ("maphack_" ++ v ++ "/manifest.json")).Files,
      fileExistsOnDisk disk f.Name = true) :
    (∀ f ∈ (manifests ("maphack_" ++ v ++ "/manifest.json")).Files, ∃ c,
      diskLookup disk f.Name = some c ∧
      ({ Name := f.Name, D2Path := g.Location, RemoteCRC := f.CRC, LocalCRC := c,
         FileAction := "eliminar" } : ModelFile) ∈
        (validateMaphackVersion manifests disk g (v :: rest) model).2) ∧
    (∀ b, (validateMaphackVersion manifests disk g (v :: rest) model).1 = .ok b →
      b = false) := by
  obtain ⟨actions, hok, hmem⟩ :=
    patchFilesToBeDeleted_ok disk g.Location
      (manifests ("maphack_" ++ v ++ "/manifest.json")).Files hpres
  have hstep : validateMaphackVersion manifests disk g (v :: rest) model =
      validateMaphackVersionLoop manifests disk g rest false
        (addFilesToModel model actions) := by
    unfold validateMaphackVersion
    rw [validateMaphackLoop_cons_eq, if_neg (by rw [hv]; simp), if_pos hinst]
    unfold addPatchFilesToBeDeleted
    rw [hok]
  constructor
  · intro f hf
    obtain ⟨c, hc, hm⟩ := hmem f hf
    refine ⟨c, hc, ?_⟩
    rw [hstep]
    obtain ⟨t, ht⟩ := validateMaphackLoop_mono manifests disk g rest false
      (addFilesToModel model actions)
    rw [ht]
    apply List.mem_append_left
    apply List.mem_append_right
    exact List.mem_map_of_mem _ hm
  · intro b hb
    rw [hstep] at hb
    exact validateMaphackLoop_false manifests disk g rest _ b hb

/-- C6 is false as stated: the non-desired version `B` is detected as
installed via its present marker `bh.dll`, but its manifest also lists
`extra.dll`, which is absent from disk; `addPatchFilesToBeDeleted`
checksums every manifest file and propagates `ErrCRCFileNotFound`, so
`validateMaphackVersion` returns an error and queues nothing, instead of
queueing the deletes and returning `isValid = false`. -/
theorem C6_counterexample :
    isModInstalled [("bh.dll", "9")] ModMaphackIdentifier
      ({ Files := [{ Name := "bh.dll", CRC := "1" }, { Name := "extra.dll", CRC := "2" }] }
        : Manifest) = true ∧
    validateMaphackVersion
      (fun s => if s == "maphack_B/manifest.json" then
          { Files := [{ Name := "bh.dll", CRC := "1" }, { Name := "extra.dll", CRC := "2" }] }
        else { Files := [] })
      [("bh.dll", "9")]
      { MaphackVersion := "A", Location := "p" }
      ["B"] [] = (.error .fileNotFound, []) := by
  refine ⟨by decide, ?_⟩
  rfl

theorem C6_witness :
    (∃ c, diskLookup [("bh.dll", "9"), ("extra.dll", "7")] "bh.dll" = some c ∧
      ({ Name := "bh.dll", D2Path := "p", RemoteCRC := "1", LocalCRC := c,
         FileAction := "eliminar" } : ModelFile) ∈
        (validateMaphackVersion
          (fun s => if s == "maphack_B/manifest.json" then
              { Files := [{ Name := "bh.dll", CRC := "1" },
                          { Name := "extra.dll", CRC := "2" }] }
            else { Files := [] })
          [("bh.dll", "9"), ("extra.dll", "7")]
          { MaphackVersion := "A", Location := "p" }
          ["B"] []).2) ∧
    (∀ b, (validateMaphackVersion
        (fun s => if s == "maphack_B/manifest.json" then
            { Files := [{ Name := "bh.dll", CRC := "1" },
                        { Name := "extra.dll", CRC := "2" }] }
          else { Files := [] })
        [("bh.dll", "9"), ("extra.dll", "7")]
        { MaphackVersion := "A", Location := "p" }
        ["B"] []).1 = .ok b → b = false) := by
  have h := C6_conflicting_version_queued
    (fun s => if s == "maphack_B/manifest.json" then
        { Files := [{ Name := "bh.dll", CRC := "1" }, { Name := "extra.dll", CRC := "2" }] }
      else { Files := [] })
    [("bh.dll", "9"), ("extra.dll", "7")]
    { MaphackVersion := "A", Location := "p" }
    "B" [] [] (by decide) (by decide) (by decide)
  exact ⟨h.1 { Name := "bh.dll", CRC := "1" } (by decide), h.2⟩

/-! ### Claim C8: Exec launch accounting, pacing and bookkeeping -/

theorem execEvs_gameIdx (delayMS : Int) (k : Nat) (g : Game) :
    ∀ e ∈ execEvs delayMS k g, e.gameIdx = k := by
  intro e he
  unfold execEvs at he
  obtain ⟨i, _, rfl⟩ := List.mem_map.mp he
  rfl

theorem execEvs_length (delayMS : Int) (k : Nat) (g : Game) :
    (execEvs delayMS k g).length = g.Instances.toNat := by
  unfold execEvs
  rw [List.length_map, List.length_range]

theorem execLoop_gameIdx_ge (delayMS : Int) (pidGen : Nat → Int) :
    ∀ (gs : List Game) (k : Nat) (running : List game),
      ∀ e ∈ (execLoop delayMS pidGen k gs running).1, k ≤ e.gameIdx := by
  intro gs
  induction gs with
  | nil => intro k running e he; simp [execLoop] at he
  | cons g rest ih =>
    intro k running e he
    unfold execLoop at he
    split at he
    · rcases List.mem_append.mp he with h1 | h2
      · rw [execEvs_gameIdx delayMS k g e h1]
      · exact Nat.le_of_succ_le (ih (k + 1) _ e h2)
    · exact Nat.le_of_succ_le (ih (k + 1) running e he)

theorem execEvs_filter_self (delayMS : Int) (k : Nat) (g : Game) :
    (execEvs delayMS k g).filter (fun e => e.gameIdx == k) = execEvs delayMS k g := by
  rw [List.filter_eq_self]
  intro e he
  simp [execEvs_gameIdx delayMS k g e he]

theorem execEvs_filter_ne (delayMS : Int) (k k' : Nat) (g : Game) (h : k' ≠ k) :
    (execEvs delayMS k g).filter (fun e => e.gameIdx == k') = [] := by
  rw [List.filter_eq_nil_iff]
  intro e he
  rw [execEvs_gameIdx delayMS k g e he]
  simp
  exact fun hc => h hc.symm

theorem execLoop_filter_ge_nil (delayMS : Int) (pidGen : Nat → Int) (gs : List Game)
    (k : Nat) (running : List game) (k' : Nat) (h : k' < k) :
    (execLoop delayMS pidGen k gs running).1.filter (fun e => e.gameIdx == k') = [] := by
  rw [List.filter_eq_nil_iff]
  intro e he
  have := execLoop_gameIdx_ge delayMS pidGen gs k running e he
  simp
  omega

theorem execLoop_filter (delayMS : Int) (pidGen : Nat → Int) :
    ∀ (gs : List Game) (k : Nat) (running : List game) (j : Nat) (hj : j < gs.length),
      ((execLoop delayMS pidGen k gs running).1.filter
        (fun e => e.gameIdx == k + j)).length = (gs.get ⟨j, hj⟩).Instances.toNat := by
  intro gs
  induction gs with
  | nil => intro k running j hj; simp at hj
  | cons g rest ih =>
    intro k running j hj
    unfold execLoop
    split
    next hpos =>
      show ((execEvs delayMS k g ++ _).filter _).length = _
      rw [List.filter_append, List.length_append]
      cases j with
      | zero =>
        rw [show k + 0 = k from rfl, execEvs_filter_self, execEvs_length,
          execLoop_filter_ge_nil delayMS pidGen rest (k + 1) _ k (Nat.lt_succ_self k)]
        rfl
      | succ j' =>
        rw [execEvs_filter_ne delayMS k (k + (j' + 1)) g (by omega)]
        rw [show k + (j' + 1) = (k + 1) + j' from by omega]
        rw [ih (k + 1) (execNewRunning pidGen g running) j' (Nat.lt_of_succ_lt_succ hj)]
        simp
    next hneg =>
      cases j with
      | zero =>
        rw [show k + 0 = k from rfl,
          execLoop_filter_ge_nil delayMS pidGen rest (k + 1) running k (Nat.lt_succ_self k)]
        show 0 = g.Instances.toNat
        rw [Int.toNat_of_nonpos (Int.not_lt.mp hneg)]
      | succ j' =>
        rw [show k + (j' + 1) = (k + 1) + j' from by omega]
        rw [ih (k + 1) running j' (Nat.lt_of_succ_lt_succ hj)]
        rfl

theorem execLoop_preDelay (delayMS : Int) (pidGen : Nat → Int) :
    ∀ (gs : List Game) (k : Nat) (running : List game),
      ∀ e ∈ (execLoop delayMS pidGen k gs running).1,
        e.preDelay = if e.gameIdx == 0 && e.instIdx == 0 then none else some delayMS := by
  intro gs
  induction gs with
  | nil => intro k running e he; simp [execLoop] at he
  | cons g rest ih =>
    intro k running e he
    unfold execLoop at he
    split at he
    · rcases List.mem_append.mp he with h1 | h2
      · unfold execEvs at h1
        obtain ⟨i, _, rfl⟩ := List.mem_map.mp h1
        rfl
      · exact ih (k + 1) _ e h2
    · exact ih (k + 1) running e he

theorem execLoop_running (delayMS : Int) (pidGen : Nat → Int) :
    ∀ (gs : List Game) (k : Nat) (running : List game),
      (execLoop delayMS pidGen k gs running).2.map (fun r => r.GameID)
        = running.map (fun r => r.GameID)
          ++ (execLoop delayMS pidGen k gs running).1.map (fun e => e.gameID) := by
  intro gs
  induction gs with
  | nil => intro k running; simp [execLoop]
  | cons g rest ih =>
    intro k running
    unfold execLoop
    split
    · show (execLoop delayMS pidGen (k + 1) rest (execNewRunning pidGen g running)).2.map _
        = running.map _ ++ (execEvs delayMS k g ++ _).map _
      rw [ih (k + 1) (execNewRunning pidGen g running)]
      unfold execNewRunning execEvs
      simp [List.map_append, List.map_map, List.append_assoc]
    · exact ih (k + 1) running

theorem execLoop_running_length (delayMS : Int) (pidGen : Nat → Int) (gs : List Game)
    (k : Nat) (running : List game) :
    (execLoop delayMS pidGen k gs running).2.length
      = running.length + (execLoop delayMS pidGen k gs running).1.length := by
  have h := congrArg List.length (execLoop_running delayMS pidGen gs k running)
  simpa [List.length_map, List.length_append] using h

theorem mutateInstances_get :
    ∀ (gs : List Game) (running : List game) (k : Nat) (hk1 : k < (mutateInstancesToLaunch gs running).length)
      (hk2 : k < gs.length),
      (mutateInstancesToLaunch gs running).get ⟨k, hk1⟩ =
        { gs.get ⟨k, hk2⟩ with
          Instances := (gs.get ⟨k, hk2⟩).Instances
            - (runningCountOf running (gs.get ⟨k, hk2⟩).ID : Int) } := by
  intro gs
  induction gs with
  | nil => intro running k _ hk2; simp at hk2
  | cons g rest ih =>
    intro running k hk1 hk2
    cases k with
    | zero => rfl
    | succ k' =>
      exact ih running k' (by simpa [mutateInstancesToLaunch] using Nat.lt_of_succ_lt_succ hk1)
        (Nat.lt_of_succ_lt_succ hk2)

/-- C8: for every call to `Exec`, the number of launches recorded for the
installation at position `k` equals its configured instance count minus the
number of already-running games recorded with the same installation id,
clamped at zero; a launch has no preceding sleep exactly when it is the
first instance of the first configured installation, every other launch is
preceded by the configured delay (the default 1000 ms when unset); and the
running-games slice after `Exec` is the old slice plus exactly one entry
per launch, carrying the launched installation's id. -/
theorem C8_exec_accounting (conf : Config) (running : List game) (pidGen : Nat → Int)
    (k : Nat) (hk : k < conf.Games.length) :
    ((execD2 conf running pidGen).1.filter (fun e => e.gameIdx == k)).length
      = ((conf.Games.get ⟨k, hk⟩).Instances
          - (runningCountOf running (conf.Games.get ⟨k, hk⟩).ID : Int)).toNat ∧
    (∀ e ∈ (execD2 conf running pidGen).1,
      e.preDelay = if e.gameIdx == 0 && e.instIdx == 0 then none
        else some (execDelay conf)) ∧
    (execD2 conf running pidGen).2.length
      = running.length + (execD2 conf running pidGen).1.length ∧
    (execD2 conf running pidGen).2.map (fun r => r.GameID)
      = running.map (fun r => r.GameID) ++ (execD2 conf running pidGen).1.map (fun e => e.gameID) := by
  have hk1 : k < (mutateInstancesToLaunch conf.Games running).length := by
    unfold mutateInstancesToLaunch
    rw [List.length_map]
    exact hk
  refine ⟨?_, ?_, ?_, ?_⟩
  · have h := execLoop_filter (execDelay conf) pidGen
      (mutateInstancesToLaunch conf.Games running) 0 running k hk1
    simp only [Nat.zero_add] at h
    unfold execD2
    rw [h, mutateInstances_get conf.Games running k hk1 hk]
  · intro e he
    exact execLoop_preDelay (execDelay conf) pidGen
      (mutateInstancesToLaunch conf.Games running) 0 running e he
  · exact execLoop_running_length (execDelay conf) pidGen
      (mutateInstancesToLaunch conf.Games running) 0 running
  · exact execLoop_running (execDelay conf) pidGen
      (mutateInstancesToLaunch conf.Games running) 0 running

theorem C8_witness :
    ((execD2 execConfExample [] (fun n => (n : Int))).1.filter
      (fun e => e.gameIdx == 0)).length = 2 ∧
    ((execD2 execConfExample [] (fun n => (n : Int))).1.filter
      (fun e => e.gameIdx == 1)).length = 1 ∧
    (∀ e ∈ (execD2 execConfExample [] (fun n => (n : Int))).1,
      e.preDelay = if e.gameIdx == 0 && e.instIdx == 0 then none else some 1000) ∧
    (execD2 execConfExample [] (fun n => (n : Int))).2.length
      = 0 + (execD2 execConfExample [] (fun n => (n : Int))).1.length := by
  have h0 := C8_exec_accounting execConfExample [] (fun n => (n : Int)) 0 (by decide)
  have h1 := C8_exec_accounting execConfExample [] (fun n => (n : Int)) 1 (by decide)
  refine ⟨h0.1.trans (by decide), h1.1.trans (by decide), ?_, h0.2.2.1⟩
  intro e he
  rw [h0.2.1 e he]
  rfl

/-! ### Claim C10: partial display-model results survive a failed validation -/

theorem validateHDLoop_cons_eq (manifests : String → Manifest) (disk : Disk) (g : Game)
    (v : String) (rest : List String) (isValid : Bool) (model : List ModelFile) :
    validateHDVersionLoop manifests disk g (v :: rest) isValid model =
      if g.HDVersion == v then
        if (getFilesToPatch (manifests ("hd_" ++ v ++ "/manifest.json")).Files disk
              g.Location []).1.length > 0 then
          validateHDVersionLoop manifests disk g rest false
            (addFilesToModel model
              (getFilesToPatch (manifests ("hd_" ++ v ++ "/manifest.json")).Files disk
                g.Location []).1)
        else validateHDVersionLoop manifests disk g rest isValid model
      else
        if isModInstalled disk ModHDIdentifier (manifests ("hd_" ++ v ++ "/manifest.json")) then
          match addPatchFilesToBeDeleted disk g.Location
              (manifests ("hd_" ++ v ++ "/manifest.json")).Files model with
          | .error e => (.error e, model)
          | .ok model2 => validateHDVersionLoop manifests disk g rest false model2
        else validateHDVersionLoop manifests disk g rest isValid model := rfl

theorem validateHDLoop_mono (manifests : String → Manifest) (disk : Disk) (g : Game) :
    ∀ (versions : List String) (isValid : Bool) (model : List ModelFile),
      ∃ t, (validateHDVersionLoop manifests disk g versions isValid model).2
        = model ++ t := by
  intro versions
  induction versions with
  | nil => intro isValid model; exact ⟨[], by simp [validateHDVersionLoop]⟩
  | cons v rest ih =>
    intro isValid model
    rw [validateHDLoop_cons_eq]
    split
    · split
      · obtain ⟨t, ht⟩ := ih false
          (addFilesToModel model
            (getFilesToPatch (manifests ("hd_" ++ v ++ "/manifest.json")).Files disk
              g.Location []).1)
        exact ⟨_, by rw [ht]; unfold addFilesToModel; rw [List.append_assoc]⟩
      · exact ih isValid model
    · split
      · cases hdel : addPatchFilesToBeDeleted disk g.Location
          (manifests ("hd_" ++ v ++ "/manifest.json")).Files model with
        | error e => exact ⟨[], by simp⟩
        | ok model2 =>
          obtain ⟨s, hs⟩ := addPatchFilesToBeDeleted_extends disk g.Location _ model model2 hdel
          obtain ⟨t, ht⟩ := ih false model2
          refine ⟨s ++ t, ?_⟩
          show (validateHDVersionLoop manifests disk g rest false model2).2
            = model ++ (s ++ t)
          rw [ht, hs, List.append_assoc]
      · exact ih isValid model

theorem validateMaphackVersion_extends (manifests : String → Manifest) (disk : Disk)
    (g : Game) (versions : List String) (model : List ModelFile) :
    ∃ t, (validateMaphackVersion manifests disk g versions model).2 = model ++ t :=
  validateMaphackLoop_mono manifests disk g versions true model

theorem validateHDVersion_extends (manifests : String → Manifest) (disk : Disk)
    (g : Game) (versions : List String) (model : List ModelFile) :
    ∃ t, (validateHDVersion manifests disk g versions model).2 = model ++ t :=
  validateHDLoop_mono manifests disk g versions true model

theorem processGame113_extends (manifests : String → Manifest) (valid113c : String → Bool)
    (fs : String → Disk) (g : Game) (model : List ModelFile) :
    ∃ s, processGame113 manifests valid113c fs g model = model ++ s := by
  unfold processGame113
  split
  · exact ⟨_, rfl⟩
  · exact ⟨[], by simp⟩

theorem processGameSlash_extends (manifests : String → Manifest) (fs : String → Disk)
    (g : Game) (model : List ModelFile) :
    ∃ s, processGameSlash manifests fs g model = model ++ s := by
  unfold processGameSlash
  split
  · exact ⟨_, rfl⟩
  · exact ⟨[], by simp⟩

theorem hdMatch_snd (manifests : String → Manifest) (disk : Disk) (g : Game)
    (versions : List String) (boolExpr : Bool) (m3 : List ModelFile) :
    ∃ t, (match validateHDVersion manifests disk g versions m3 with
      | (.error e, m) => ((.error e : Except CRCErr Bool), m)
      | (.ok validHD, model4) => (.ok (boolExpr && validHD), model4)).2 = m3 ++ t := by
  cases hhd : validateHDVersion manifests disk g versions m3 with
  | mk res2 m4 =>
    obtain ⟨s4, hs4⟩ := validateHDVersion_extends manifests disk g versions m3
    have hm4 : m4 = m3 ++ s4 := by
      have h := congrArg Prod.snd hhd
      simp only at h
      rw [← h, hs4]
    cases res2 with
    | error e => exact ⟨s4, hm4⟩
    | ok validHD => exact ⟨s4, hm4⟩

theorem processGame_extends (manifests : String → Manifest) (valid113c : String → Bool)
    (fs : String → Disk) (mods : GameMods) (g : Game) (model : List ModelFile) :
    ∃ t, (processGame manifests valid113c fs mods g model).2 = model ++ t := by
  unfold processGame
  obtain ⟨s1, hs1⟩ := processGame113_extends manifests valid113c fs g model
  obtain ⟨s2, hs2⟩ := processGameSlash_extends manifests fs g
    (processGame113 manifests valid113c fs g model)
  obtain ⟨s3, hs3⟩ := validateMaphackVersion_extends manifests (fs g.Location) g mods.Maphack
    (processGameSlash manifests fs g (processGame113 manifests valid113c fs g model))
  cases hmv : validateMaphackVersion manifests (fs g.Location) g mods.Maphack
    (processGameSlash manifests fs g (processGame113 manifests valid113c fs g model)) with
  | mk res m3 =>
    have hm3 : m3 = ((model ++ s1) ++ s2) ++ s3 := by
      have h := congrArg Prod.snd hmv
      simp only at h
      rw [← h, hs3, hs2, hs1]
    cases res with
    | error e => exact ⟨s1 ++ (s2 ++ s3), by simp [hm3, List.append_assoc]⟩
    | ok validMaphack =>
      obtain ⟨s4, hs4⟩ := hdMatch_snd manifests (fs g.Location) g mods.HD
        (valid113c g.Location && !(decide ((slashFilesOf manifests fs g).length > 0))
          && validMaphack) m3
      refine ⟨s1 ++ (s2 ++ (s3 ++ s4)), ?_⟩
      show (match validateHDVersion manifests (fs g.Location) g mods.HD m3 with
        | (.error e, m) => ((.error e : Except CRCErr Bool), m)
        | (.ok validHD, model4) =>
          (.ok (valid113c g.Location
              && !(decide ((slashFilesOf manifests fs g).length > 0))
              && validMaphack && validHD), model4)).2
        = model ++ (s1 ++ (s2 ++ (s3 ++ s4)))
      rw [hs4, hm3]
      simp [List.append_assoc]

theorem validateGameVersionsLoop_cons_eq (manifests : String → Manifest)
    (valid113c : String → Bool) (fs : String → Disk) (mods : GameMods) (g : Game)
    (rest : List Game) (upToDate : Bool) (model : List ModelFile) :
    validateGameVersionsLoop manifests valid113c fs mods (g :: rest) upToDate model =
      match processGame manifests valid113c fs mods g model with
      | (.error e, m) => (.error e, m)
      | (.ok gameOk, m) =>
        validateGameVersionsLoop manifests valid113c fs mods rest (upToDate && gameOk) m
    := rfl

theorem validateGameVersionsLoop_mono (manifests : String → Manifest)
    (valid113c : String → Bool) (fs : String → Disk) (mods : GameMods) :
    ∀ (games : List Game) (upToDate : Bool) (model : List ModelFile),
      ∃ t, (validateGameVersionsLoop manifests valid113c fs mods games upToDate model).2
        = model ++ t := by
  intro games
  induction games with
  | nil => intro u model; exact ⟨[], by simp [validateGameVersionsLoop]⟩
  | cons g rest ih =>
    intro u model
    rw [validateGameVersionsLoop_cons_eq]
    obtain ⟨s, hs⟩ := processGame_extends manifests valid113c fs mods g model
    cases hpg : processGame manifests valid113c fs mods g model with
    | mk res m =>
      have hm : m = model ++ s := by
        have h := congrArg Prod.snd hpg
        simp only at h
        rw [← h, hs]
      cases res with
      | error e => exact ⟨s, by simpa using hm⟩
      | ok gameOk =>
        obtain ⟨t, ht⟩ := ih (u && gameOk) m
        refine ⟨s ++ t, ?_⟩
        show (validateGameVersionsLoop manifests valid113c fs mods rest (u && gameOk) m).2
          = model ++ (s ++ t)
        rw [ht, hm, List.append_assoc]

/-- C10: when `ValidateGameVersions` fails while processing a later
installation, the shared display model retains every row added for
installations (and targets) processed before the failure: if the first
configured game is processed successfully yielding model `m1`, and the
whole validation then returns an error with final model `m2`, `m2` extends
`m1` — the model mutations are not rolled back, so a caller observing the
shared model sees partial results even though the function returns an
error. -/
theorem C10_partial_model_survives (manifests : String → Manifest)
    (valid113c : String → Bool) (fs : String → Disk) (mods : GameMods)
    (conf : Config) (g1 : Game) (rest : List Game) (model m1 m2 : List ModelFile)
    (b1 : Bool) (e : CRCErr)
    (hconf : conf.Games = g1 :: rest)
    (h1 : processGame manifests valid113c fs mods g1 model = (.ok b1, m1))
    (hfail : validateGameVersions manifests valid113c fs mods conf model
      = (.error e, m2)) :
    ∃ t, m2 = m1 ++ t := by
  unfold validateGameVersions at hfail
  rw [hconf, validateGameVersionsLoop_cons_eq, h1] at hfail
  have hfail2 : validateGameVersionsLoop manifests valid113c fs mods rest (true && b1) m1
      = (.error e, m2) := hfail
  obtain ⟨t, ht⟩ := validateGameVersionsLoop_mono manifests valid113c fs mods rest
    (true && b1) m1
  have h2 := congrArg Prod.snd hfail2
  simp only at h2
  exact ⟨t, by rw [← h2, ht]⟩

theorem C10_witness :
    ∃ t, [({ Name := "s.dll", D2Path := "L1", RemoteCRC := "9", LocalCRC := "",
             FileAction := "descargar" } : ModelFile),
          { Name := "s.dll", D2Path := "L2", RemoteCRC := "9", LocalCRC := "",
            FileAction := "descargar" }]
      = [({ Name := "s.dll", D2Path := "L1", RemoteCRC := "9", LocalCRC := "",
            FileAction := "descargar" } : ModelFile)] ++ t :=
  C10_partial_model_survives c10Manifests (fun _ => true) c10Fs
    { Maphack := ["B"], HD := [] } c10Conf
    { ID := "1", Location := "L1", MaphackVersion := "A" }
    [{ ID := "2", Location := "L2", MaphackVersion := "A" }]
    []
    [{ Name := "s.dll", D2Path := "L1", RemoteCRC := "9", LocalCRC := "",
       FileAction := "descargar" }]
    [{ Name := "s.dll", D2Path := "L1", RemoteCRC := "9", LocalCRC := "",
       FileAction := "descargar" },
     { Name := "s.dll", D2Path := "L2", RemoteCRC := "9", LocalCRC := "",
       FileAction := "descargar" }]
    false .fileNotFound rfl rfl rfl

end DiabloLauncher
